import Mathlib

/-!
Verification development for the bond-reconstruction and
residue-canonicalization algorithm of the calcium-carbonate surface
generator, `SurfaceGen.pdb_clean` in
`src/initial-structure/calcium-carbonate-crystal/generation/python/src/surface.py`.

Modelling decisions:
* Atom positions are IEEE floats in the source; they are modelled as real
  numbers, so geometric predicates (distance cutoffs, coordinate equality)
  are classical and some definitions are `noncomputable`.  All combinatorial
  data (atom names, bond lists, residue ids) stays over `String`/`Nat` and is
  fully computable.
* The MDAnalysis universe is modelled as a flat list of atoms (list position
  = atom index), a bond table (list of index pairs, treated as a set of
  unordered pairs: `add_bonds` inserts a pair only if absent), and an
  orthorhombic periodic box given by its three edge lengths.  The spec
  states the box is orthorhombic in practice; the `around` selection and the
  explicit `d - round(d/L)*L` wrapping of the source then agree on the
  minimum-image convention, which is the one modelled here.
* `np.round` rounds halves to even; `npRound` reproduces that.
* File I/O, PDB record-type/segment/chain bookkeeping and warning emission
  are not modelled; the per-structure outcome (success, caught error with a
  diagnostic artifact, uncaught exception) is captured by `CleanResult`.
-/

namespace CaCO3

noncomputable section

/-- Three-dimensional vector with real components (source: numpy float arrays). -/
@[ext]
structure Vec3 where
  x : ℝ
  y : ℝ
  z : ℝ

/-- Componentwise vector addition. -/
def vadd (a b : Vec3) : Vec3 := ⟨a.x + b.x, a.y + b.y, a.z + b.z⟩

/-- Componentwise vector subtraction. -/
def vsub (a b : Vec3) : Vec3 := ⟨a.x - b.x, a.y - b.y, a.z - b.z⟩

/-- Componentwise vector negation. -/
def vneg (a : Vec3) : Vec3 := ⟨-a.x, -a.y, -a.z⟩

/-- Scalar multiple of a vector. -/
def smul (r : ℝ) (a : Vec3) : Vec3 := ⟨r * a.x, r * a.y, r * a.z⟩

/-- Euclidean inner product. -/
def dot (a b : Vec3) : ℝ := a.x * b.x + a.y * b.y + a.z * b.z

/-- Cross product (source: `np.cross`). -/
def cross (a b : Vec3) : Vec3 :=
  ⟨a.y * b.z - a.z * b.y, a.z * b.x - a.x * b.z, a.x * b.y - a.y * b.x⟩

/-- Euclidean norm (source: `np.linalg.norm`). -/
def vnorm (a : Vec3) : ℝ := Real.sqrt (dot a a)

/-- Vector scaled to unit length, `v / np.linalg.norm(v)` in the source
(the degenerate zero-vector case, a NaN in the source, maps to `0` here;
no claim exercises it). -/
def normalize (v : Vec3) : Vec3 := smul (1 / vnorm v) v

/-- Rounding of `np.round`: nearest integer, halves to even. -/
def npRound (x : ℝ) : ℤ :=
  if Int.fract x = 1/2 then (if Even ⌊x⌋ then ⌊x⌋ else ⌊x⌋ + 1) else round x

/-- One axis of the source's minimum-image reduction
`d - np.round(d / L) * L`. -/
def miWrap (d L : ℝ) : ℝ := d - (npRound (d / L) : ℝ) * L

/-- Minimum-image displacement vector from `b` to `a` for an orthorhombic box. -/
def miVec (a b box : Vec3) : Vec3 :=
  ⟨miWrap (a.x - b.x) box.x, miWrap (a.y - b.y) box.y, miWrap (a.z - b.z) box.z⟩

/-- Squared minimum-image distance. -/
def miDist2 (a b box : Vec3) : ℝ := dot (miVec a b box) (miVec a b box)

/-- One atom record: name (columns 14-16 of the PDB line), residue name,
residue id and position.  Record type, segment id and chain id carry no
information used by the algorithm and are omitted. -/
structure Atom where
  name : String
  resname : String
  resid : Nat
  pos : Vec3

/-- Placeholder atom returned for an out-of-range index (the source never
indexes out of range). -/
def dfltAtom : Atom := ⟨"", "", 0, ⟨0, 0, 0⟩⟩

/-- In-memory structure: the atom list (list position = MDAnalysis atom
index), the bond table, and the orthorhombic box edge lengths. -/
structure SimState where
  atoms : List Atom
  bonds : List (Nat × Nat)
  box : Vec3

/-- Atom lookup by index. -/
def getAtom (s : SimState) (i : Nat) : Atom := s.atoms.getD i dfltAtom

/-- All atom indices in order (the `ag` iteration order of the source). -/
def atomIdx (s : SimState) : List Nat := List.range s.atoms.length

/-- Membership of an unordered pair in the bond table. -/
def bondMem (bs : List (Nat × Nat)) (i j : Nat) : Bool :=
  bs.any (fun p => (p.1 = i ∧ p.2 = j) ∨ (p.1 = j ∧ p.2 = i))

/-- Source `u.add_bonds([(i, j)])`: insert the pair unless already present. -/
def addBond (bs : List (Nat × Nat)) (i j : Nat) : List (Nat × Nat) :=
  if bondMem bs i j then bs else (i, j) :: bs

/-- Partners of atom `i` in a bond table. -/
def partners (bs : List (Nat × Nat)) (i : Nat) : List Nat :=
  bs.filterMap (fun p =>
    if p.1 = i then some p.2 else if p.2 = i then some p.1 else none)

/-- Partners of atom `i` in the bond table (source `atom.bonded_atoms`). -/
def bondedTo (s : SimState) (i : Nat) : List Nat := partners s.bonds i

/-- Number of bonds of atom `i` (source `len(atom.bonded_atoms)`). -/
def bondCount (s : SimState) (i : Nat) : Nat := (bondedTo s i).length

/-- Replace the atom at index `i` by `f` of it. -/
def modifyIdx (l : List Atom) (i : Nat) (f : Atom → Atom) : List Atom :=
  match l, i with
  | [], _ => []
  | a :: t, 0 => f a :: t
  | a :: t, n + 1 => a :: modifyIdx t n f

/-- Overwrite the position of atom `i`. -/
def setPos (s : SimState) (i : Nat) (p : Vec3) : SimState :=
  { s with atoms := modifyIdx s.atoms i (fun a => { a with pos := p }) }

/-- Overwrite the name of atom `i`. -/
def setName (s : SimState) (i : Nat) (nm : String) : SimState :=
  { s with atoms := modifyIdx s.atoms i (fun a => { a with name := nm }) }

/-- Overwrite name and residue name of atom `i`. -/
def setNameRes (s : SimState) (i : Nat) (nm rn : String) : SimState :=
  { s with atoms := modifyIdx s.atoms i (fun a => { a with name := nm, resname := rn }) }

/-- Overwrite the residue name of atom `i`. -/
def setResname (s : SimState) (i : Nat) (rn : String) : SimState :=
  { s with atoms := modifyIdx s.atoms i (fun a => { a with resname := rn }) }

/-- Move atom `i` into the residue `(rn, rid)` (source
`atom.residue = res` after `u.add_Residue(resname=rn, resid=rid, ...)`). -/
def setResidue (s : SimState) (i : Nat) (rn : String) (rid : Nat) : SimState :=
  { s with atoms := modifyIdx s.atoms i (fun a => { a with resname := rn, resid := rid }) }

/-- Indices selected by `u.select_atoms("name nm and resname rn")`,
in ascending index order as MDAnalysis returns them. -/
def selectName (s : SimState) (nm rn : String) : List Nat :=
  (atomIdx s).filter (fun i => (getAtom s i).name = nm ∧ (getAtom s i).resname = rn)

/-- The `oxygens` atom group of `pdb_clean` (line 365). -/
def oxygens (s : SimState) : List Nat := selectName s "OX1" "CRB"

/-- The `carbons` atom group of `pdb_clean` (line 366). -/
def carbons (s : SimState) : List Nat := selectName s "CX1" "CRB"

/-- Bonding cutoff of the `around 1.3` selection, in Angstrom. -/
def cutoff : ℝ := 1.3

/-- Carbon candidates for an oxygen: the `select_atoms("(name CX1 and resname
CRB) and around 1.3 index i", periodic=True)` result of `pdb_clean`
(lines 370-373), as indices drawn from the carbon group `cars`. -/
def candidates (s : SimState) (cars : List Nat) (o : Nat) : List Nat :=
  cars.filter (fun c => miDist2 (getAtom s o).pos (getAtom s c).pos s.box ≤ cutoff ^ 2)

/-- One oxygen of the existing-bond detection loop (lines 369-375): a bond
is created exactly when the candidate list has length one; with zero or
several candidates nothing happens. -/
def detectStep (cars : List Nat) (s : SimState) (o : Nat) : SimState :=
  match candidates s cars o with
  | [c] => { s with bonds := addBond s.bonds o c }
  | _ => s

/-- Existing-bond detection (lines 368-375): fold `detectStep` over the
oxygen group. -/
def detectBonds (cars oxs : List Nat) (s : SimState) : SimState :=
  oxs.foldl (detectStep cars) s

/-- Minimum-image bond vector from carbon `c` to its partner `o`
(source `bonded.position - carbon.position`, wrapped per axis). -/
def miBondVec (s : SimState) (c o : Nat) : Vec3 :=
  miVec (getAtom s o).pos (getAtom s c).pos s.box

/-- Reference-plane establishment (lines 377-404): the first carbon with 3
bonds yields the normalized cross product of its first two minimum-image
bond vectors; `none` models the `surf_norm is None` fatal path. -/
def findSurfNorm (cars : List Nat) (s : SimState) : Option Vec3 :=
  match cars.find? (fun c => bondCount s c = 3) with
  | none => none
  | some c =>
    some (normalize (cross (miBondVec s c ((bondedTo s c).getD 0 0))
                           (miBondVec s c ((bondedTo s c).getD 1 0))))

/-- Ideal carbonate C-O bond length used by the reconstruction, in Angstrom. -/
def idealBond : ℝ := 1.285

/-- Placement for a carbon with two existing bonds (lines 417-441): sum the
two minimum-image bond vectors, negate, normalize, and step `idealBond`
from the carbon. -/
def place2pos (s : SimState) (c : Nat) : Vec3 :=
  let w1 := miBondVec s c ((bondedTo s c).getD 0 0)
  let w2 := miBondVec s c ((bondedTo s c).getD 1 0)
  vadd (getAtom s c).pos (smul idealBond (normalize (vsub (vneg w1) w2)))

/-- Rotation angle of the one-bond completion rule, in radians
(source: `Rotation.from_rotvec(119.486687 * surf_norm, degrees=True)`). -/
def rotAngle : ℝ := 119.486687 * Real.pi / 180

/-- Rodrigues rotation of `v` by `rotAngle` about the unit axis `n`. -/
def rotAxis (n v : Vec3) : Vec3 :=
  vadd (vadd (smul (Real.cos rotAngle) v) (smul (Real.sin rotAngle) (cross n v)))
       (smul ((1 - Real.cos rotAngle) * dot n v) n)

/-- Placement for a carbon with one existing bond (lines 444-461): rotate the
normalized minimum-image bond vector about the reference normal and step
`idealBond` from the carbon. -/
def place1pos (n : Vec3) (s : SimState) (c : Nat) : Vec3 :=
  vadd (getAtom s c).pos
       (smul idealBond (rotAxis n (normalize (miBondVec s c ((bondedTo s c).getD 0 0)))))

/-- Error message of the zero-bond-carbon fatal path (lines 463-467). -/
def zeroBondMsg (c : Nat) : String :=
  "Carbon atom " ++ toString c ++ " has 0 bonds"

/-- Inner loop of the completion pass (lines 411-461), scanning the carbon
group in order for one free oxygen `o`: a 3-bond carbon is skipped, a 2-bond
or 1-bond carbon receives the oxygen (place, register one bond, stop), a
0-bond carbon is fatal, and a carbon with four or more bonds matches none of
the source's `elif` arms, so the scan moves on.  Falling off the end leaves
the oxygen free. -/
def completionInner (n : Vec3) (o : Nat) :
    List Nat → SimState → Except (SimState × String) SimState
  | [], s => .ok s
  | c :: rest, s =>
    if bondCount s c = 3 then completionInner n o rest s
    else if bondCount s c = 2 then
      let s2 := setPos s o (place2pos s c)
      .ok { s2 with bonds := addBond s2.bonds o c }
    else if bondCount s c = 1 then
      let s2 := setPos s o (place1pos n s c)
      .ok { s2 with bonds := addBond s2.bonds o c }
    else if bondCount s c = 0 then .error (s, zeroBondMsg c)
    else completionInner n o rest s

/-- One oxygen of the completion pass (lines 407-409): oxygens that already
hold a bond are skipped. -/
def completionStep (n : Vec3) (cars : List Nat) (s : SimState) (o : Nat) :
    Except (SimState × String) SimState :=
  if bondCount s o = 0 then completionInner n o cars s else .ok s

/-- The completion pass of `pdb_clean` (lines 406-461): one pass over the
oxygen group. -/
def completionPass (n : Vec3) (cars oxs : List Nat) (s : SimState) :
    Except (SimState × String) SimState :=
  oxs.foldlM (completionStep n cars) s

/-- Rename the partners of carbon `c` to `OX1`, `OX2`, ... (lines 476-477). -/
def renameBonded (s : SimState) (c : Nat) : SimState :=
  (bondedTo s c).enum.foldl (fun st p => setName st p.2 ("OX" ++ toString (p.1 + 1))) s

/-- Post-pass carbon check and oxygen renaming for one carbon
(lines 470-477): a carbon without exactly 3 bonds is fatal. -/
def checkCarbon (s : SimState) (c : Nat) : Except (SimState × String) SimState :=
  if bondCount s c = 3 then .ok (renameBonded s c)
  else .error (s, "Carbon atom " ++ toString c ++ " has " ++
                  toString (bondCount s c) ++ " bonds")

/-- Post-pass carbon check over the carbon group (lines 470-477). -/
def checkCarbons (cars : List Nat) (s : SimState) : Except (SimState × String) SimState :=
  cars.foldlM checkCarbon s

/-- Number of atoms currently in residues named `CA`
(source `len(u.select_atoms("resname CA"))`, line 481). -/
def resCountCA (s : SimState) : Nat :=
  ((atomIdx s).filter (fun i => (getAtom s i).resname = "CA")).length

/-- Residue assignment for one atom (lines 482-515), threading the carbonate
counter `ic` and the calcium counter `ica`: a `CX1` atom and its bonded
partners form a fresh `CRB` residue; a `CA` atom with any bond is fatal,
otherwise it forms a fresh singleton `CA` residue; other atoms are untouched. -/
def assignStep (acc : SimState × Nat × Nat) (i : Nat) :
    Except (SimState × String) (SimState × Nat × Nat) :=
  let st := acc.1
  let ic := acc.2.1
  let ica := acc.2.2
  if (getAtom st i).name = "CX1" then
    let st1 := setResidue st i "CRB" ic
    let st2 := (bondedTo st1 i).foldl (fun t b => setResidue t b "CRB" ic) st1
    .ok (st2, ic + 1, ica)
  else if (getAtom st i).name = "CA" then
    if bondCount st i = 0 then .ok (setResidue st i "CA" ica, ic, ica + 1)
    else .error (st, "Calcium atom " ++ toString i ++ " has " ++
                     toString (bondCount st i) ++ " bonds")
  else .ok (st, ic, ica)

/-- Residue assignment (lines 479-515): the carbonate counter starts at 1,
the calcium counter at `len(select_atoms("resname CA")) + 1`. -/
def assignResidues (s : SimState) : Except (SimState × String) SimState :=
  Except.map (fun t => t.1) ((atomIdx s).foldlM assignStep (s, 1, resCountCA s + 1))

open Classical in
/-- Duplicate-coordinate check (lines 517-520): exact equality of positions,
as `np.unique` compares floats exactly. -/
def dupCheck (s : SimState) : Except (SimState × String) SimState :=
  if List.Pairwise (fun a b : Atom => a.pos ≠ b.pos) s.atoms then .ok s
  else .error (s, "Atoms have the same coordinates")

/-- Reference-plane stage as a fallible computation: the `surf_norm is None`
check of lines 403-404 raises on a missing reference plane. -/
def surfNormE (cars : List Nat) (s : SimState) : Except (SimState × String) Vec3 :=
  match findSurfNorm cars s with
  | none => .error (s, "Could not find a fully connected carbonate group")
  | some n => .ok n

/-- Body of the `try` block of `pdb_clean` (lines 364-520): detection,
reference plane, completion pass, carbon check, residue assignment,
duplicate check.  An error carries the universe state at the raise site,
which is what the except branch writes to the diagnostic artifact. -/
def tryBody (s : SimState) : Except (SimState × String) SimState :=
  let oxs := oxygens s
  let cars := carbons s
  let s1 := detectBonds cars oxs s
  do
    let n ← surfNormE cars s1
    let s2 ← completionPass n cars oxs s1
    let s3 ← checkCarbons cars s2
    let s4 ← assignResidues s3
    dupCheck s4

/-- Atom renaming of `pdb_clean` (lines 352-362), which runs before the
`try` block: `C` becomes `CX1`/`CRB`, `O` becomes `OX1`/`CRB`, `CA` keeps
its name and gets residue name `CA`; any other name raises `ValueError`
(and, being outside the `try`, that exception is not caught). -/
def renameStep (st : SimState) (i : Nat) : Except String SimState :=
  if (getAtom st i).name = "C" then .ok (setNameRes st i "CX1" "CRB")
  else if (getAtom st i).name = "O" then .ok (setNameRes st i "OX1" "CRB")
  else if (getAtom st i).name = "CA" then .ok (setResname st i "CA")
  else .error ("Unknown atom name " ++ (getAtom st i).name)

/-- Atom renaming loop (lines 352-362). -/
def renameAtoms (s : SimState) : Except String SimState :=
  (atomIdx s).foldlM renameStep s

/-- Smallest z coordinate (source `np.nanmin(positions[:, 2])`). -/
def zMin (s : SimState) : ℝ :=
  match s.atoms.map (fun a => a.pos.z) with
  | [] => 0
  | h :: t => t.foldl min h

/-- Largest z coordinate (source `np.nanmax(positions[:, 2])`). -/
def zMax (s : SimState) : ℝ :=
  match s.atoms.map (fun a => a.pos.z) with
  | [] => 0
  | h :: t => t.foldl max h

/-- Rigid-body z translation and box resize of `pdb_clean` (lines 332-344):
shift all atoms by `-z_min` along z and set the third box length to
`z_max - z_min`. -/
def zAdjust (s : SimState) : SimState :=
  { s with
    atoms := s.atoms.map (fun a => { a with pos := ⟨a.pos.x, a.pos.y, a.pos.z - zMin s⟩ }),
    box := ⟨s.box.x, s.box.y, zMax s - zMin s⟩ }

/-- Per-structure outcome of `pdb_clean`.  `ok` is the success path (output
written, then reordered and unwrapped); `caught` is the except branch of
lines 522-528 (partially written output removed, the carried state written to
the `error_`-prefixed diagnostic artifact, a warning emitted, control
returned so the batch continues); `uncaught` is an exception raised outside
the `try` block, which propagates to the caller. -/
inductive CleanResult where
  | ok (s : SimState)
  | caught (artifact : SimState) (msg : String)
  | uncaught (msg : String)

/-- The `pdb_clean` method (lines 330-528 of `surface.py`).  The input state
models the universe as loaded from the CONECT-stripped PDB file with
`guess_bonds=False`, hence with an empty bond table on the real call path;
the definition itself accepts any state. -/
def pdb_clean (s : SimState) : CleanResult :=
  match renameAtoms (zAdjust s) with
  | .error m => .uncaught m
  | .ok s1 =>
    match tryBody s1 with
    | .error e => .caught e.1 e.2
    | .ok s2 => .ok s2

/-- Batch orchestration (`save_slabs` looping `create_pdb` over the generated
slabs): structures are processed in order; a caught per-structure failure
lets the batch continue, while an uncaught exception propagates and aborts
the remaining structures.  Returns the outcomes of the structures actually
processed and the aborting message, if any. -/
def processBatch : List SimState → List CleanResult × Option String
  | [] => ([], none)
  | s :: rest =>
    match pdb_clean s with
    | .uncaught m => ([.uncaught m], some m)
    | .ok t => ((.ok t) :: (processBatch rest).1, (processBatch rest).2)
    | .caught t m => ((.caught t m) :: (processBatch rest).1, (processBatch rest).2)

/-- Modelled from the spec (section 4.2 step 1), for comparison with the
source's `detectStep`: with more than one candidate central atom within the
cutoff the step fails with a `BondAmbiguity` condition. -/
def detectStepSpec (cars : List Nat) (s : SimState) (o : Nat) :
    Except String SimState :=
  if bondCount s o = 0 then
    match candidates s cars o with
    | [] => .ok s
    | [c] => .ok { s with bonds := addBond s.bonds o c }
    | _ => .error "BondAmbiguity"
  else .ok s

/-- Modelled from the spec (section 4.2 step 1): existing-bond detection
with the `BondAmbiguity` failure mode. -/
def detectBondsSpec (cars oxs : List Nat) (s : SimState) : Except String SimState :=
  oxs.foldlM (detectStepSpec cars) s

/-- Modelled from the spec (section 4.2 step 4): repeat the completion pass
until no free terminal atoms remain, failing with `StalledReconstruction`
when a full pass adds no bond.  The fuel argument bounds the iteration
count. -/
def completionLoopSpec (n : Vec3) (cars oxs : List Nat) :
    Nat → SimState → Except (SimState × String) SimState
  | 0, s => .ok s
  | fuel + 1, s =>
    if (oxs.filter (fun o => bondCount s o = 0)).isEmpty then .ok s
    else
      match completionPass n cars oxs s with
      | .error e => .error e
      | .ok s2 =>
        if s2.bonds.length = s.bonds.length then .error (s2, "StalledReconstruction")
        else completionLoopSpec n cars oxs fuel s2

/-- Number of atoms with a given name. -/
def countName (s : SimState) (nm : String) : Nat :=
  ((atomIdx s).filter (fun i => (getAtom s i).name = nm)).length

/-- Residue ids of the atoms with a given name, in atom-index order. -/
def residsOf (s : SimState) (nm : String) : List Nat :=
  ((atomIdx s).filter (fun i => (getAtom s i).name = nm)).map
    (fun i => (getAtom s i).resid)

/-- Residue ids of all atoms, in atom-index order. -/
def allResids (s : SimState) : List Nat := s.atoms.map (fun a => a.resid)

/-! Concrete structures used to witness or refute the claims.  Box lengths
are chosen large, so every displacement below is its own minimum image. -/

/-- Reference normal for runs that never exercise the rotation rule. -/
def nvec : Vec3 := ⟨0, 0, 1⟩

/-- Structure with an atom name the renaming loop does not recognize. -/
def badNameState : SimState := ⟨[⟨"N", "", 1, ⟨0, 0, 0⟩⟩], [], ⟨100, 100, 100⟩⟩

/-- Structure holding a single calcium atom; its protected body fails in the
reference-plane stage. -/
def caOnlyState : SimState := ⟨[⟨"CA", "", 1, ⟨0, 0, 0⟩⟩], [], ⟨100, 100, 100⟩⟩

/-- The `caOnlyState` universe after the z translation and renaming, as
carried into the diagnostic artifact (the unevaluated `0 - 0` entries are
the z shift and box resize of a structure whose atoms all sit at z = 0). -/
def caOnlyArtifact : SimState := ⟨[⟨"CA", "CA", 1, ⟨0, 0, 0 - 0⟩⟩], [], ⟨100, 100, 0 - 0⟩⟩

/-- Oxygen at the origin with two carbons inside the bonding cutoff. -/
def ambigState : SimState :=
  ⟨[⟨"OX1", "CRB", 1, ⟨0, 0, 0⟩⟩,
    ⟨"CX1", "CRB", 1, ⟨1, 0, 0⟩⟩,
    ⟨"CX1", "CRB", 1, ⟨0, 1, 0⟩⟩], [], ⟨100, 100, 100⟩⟩

/-- Complete carbonate group plus one distant free oxygen: a completion pass
adds no bond, yet the pass itself raises nothing. -/
def stalledState : SimState :=
  ⟨[⟨"CX1", "CRB", 1, ⟨0, 0, 0⟩⟩,
    ⟨"OX1", "CRB", 1, ⟨2, 0, 0⟩⟩,
    ⟨"OX2", "CRB", 1, ⟨0, 2, 0⟩⟩,
    ⟨"OX3", "CRB", 1, ⟨0, 0, 2⟩⟩,
    ⟨"OX1", "CRB", 1, ⟨50, 0, 0⟩⟩],
   [(1, 0), (2, 0), (3, 0)], ⟨100, 100, 100⟩⟩

/-- Free oxygen with two half-complete carbons: the first carbon in index
order (index 0) is far from the oxygen, the second (index 1) is near. -/
def farFirstState : SimState :=
  ⟨[⟨"CX1", "CRB", 1, ⟨0, 0, 0⟩⟩,
    ⟨"CX1", "CRB", 1, ⟨50, 0, 0⟩⟩,
    ⟨"OX1", "CRB", 1, ⟨50, 2, 0⟩⟩,
    ⟨"OX2", "CRB", 1, ⟨1, 0, 0⟩⟩,
    ⟨"OX3", "CRB", 1, ⟨0, 1, 0⟩⟩,
    ⟨"OX2", "CRB", 1, ⟨51, 0, 0⟩⟩,
    ⟨"OX3", "CRB", 1, ⟨50, 1, 0⟩⟩],
   [(3, 0), (4, 0), (5, 1), (6, 1)], ⟨1000, 1000, 1000⟩⟩

/-- Outcome of the completion pass on `farFirstState`: the oxygen is placed
by the two-bond rule at the first, farther carbon. -/
def farFirstResult : SimState :=
  { setPos farFirstState 2 (place2pos farFirstState 0) with
    bonds := (2, 0) :: farFirstState.bonds }

/-- Residue-assignment input: one carbonate group and three calcium ions. -/
def resState : SimState :=
  ⟨[⟨"CX1", "CRB", 0, ⟨0, 0, 0⟩⟩,
    ⟨"OX1", "CRB", 0, ⟨1, 0, 0⟩⟩,
    ⟨"OX2", "CRB", 0, ⟨0, 1, 0⟩⟩,
    ⟨"OX3", "CRB", 0, ⟨0, 0, 1⟩⟩,
    ⟨"CA", "CA", 0, ⟨5, 0, 0⟩⟩,
    ⟨"CA", "CA", 0, ⟨6, 0, 0⟩⟩,
    ⟨"CA", "CA", 0, ⟨7, 0, 0⟩⟩],
   [(1, 0), (2, 0), (3, 0)], ⟨100, 100, 100⟩⟩

/-- Residue assignment on `resState`: the carbonate residue takes id 1, the
three calcium residues take ids 4, 5, 6 — ids 2 and 3 are never used. -/
def resResult : SimState :=
  ⟨[⟨"CX1", "CRB", 1, ⟨0, 0, 0⟩⟩,
    ⟨"OX1", "CRB", 1, ⟨1, 0, 0⟩⟩,
    ⟨"OX2", "CRB", 1, ⟨0, 1, 0⟩⟩,
    ⟨"OX3", "CRB", 1, ⟨0, 0, 1⟩⟩,
    ⟨"CA", "CA", 4, ⟨5, 0, 0⟩⟩,
    ⟨"CA", "CA", 5, ⟨6, 0, 0⟩⟩,
    ⟨"CA", "CA", 6, ⟨7, 0, 0⟩⟩],
   [(1, 0), (2, 0), (3, 0)], ⟨100, 100, 100⟩⟩

/-- One carbonate group whose oxygens sit inside the bonding cutoff, plus a
distant extra oxygen that can never be bonded. -/
def extraOxState : SimState :=
  ⟨[⟨"CX1", "CRB", 1, ⟨0, 0, 0⟩⟩,
    ⟨"OX1", "CRB", 1, ⟨1.285, 0, 0⟩⟩,
    ⟨"OX1", "CRB", 1, ⟨0, 1.285, 0⟩⟩,
    ⟨"OX1", "CRB", 1, ⟨0, 0, 1.285⟩⟩,
    ⟨"OX1", "CRB", 1, ⟨50, 50, 50⟩⟩],
   [], ⟨200, 200, 200⟩⟩

/-- Detection outcome on `extraOxState`. -/
def extraOxDetected : SimState := { extraOxState with bonds := [(3, 0), (2, 0), (1, 0)] }

/-- Reference normal found on `extraOxDetected`. -/
def extraOxNorm : Vec3 :=
  normalize (cross (miBondVec extraOxDetected 0 3) (miBondVec extraOxDetected 0 2))

/-- State of `extraOxState` after the carbon check renamed the bonded
oxygens; atom 4 stays free and still passes every later stage. -/
def extraOxChecked : SimState :=
  ⟨[⟨"CX1", "CRB", 1, ⟨0, 0, 0⟩⟩,
    ⟨"OX3", "CRB", 1, ⟨1.285, 0, 0⟩⟩,
    ⟨"OX2", "CRB", 1, ⟨0, 1.285, 0⟩⟩,
    ⟨"OX1", "CRB", 1, ⟨0, 0, 1.285⟩⟩,
    ⟨"OX1", "CRB", 1, ⟨50, 50, 50⟩⟩],
   [(3, 0), (2, 0), (1, 0)], ⟨200, 200, 200⟩⟩

/-- Two complete carbonate groups in which one already-bonded oxygen sits
within the cutoff of the other group's carbon. -/
def driftState : SimState :=
  ⟨[⟨"CX1", "CRB", 1, ⟨0, 0, 0⟩⟩,
    ⟨"OX1", "CRB", 1, ⟨5, 0, 0⟩⟩,
    ⟨"OX2", "CRB", 1, ⟨30, 0, 0⟩⟩,
    ⟨"OX3", "CRB", 1, ⟨31, 0, 0⟩⟩,
    ⟨"CX1", "CRB", 1, ⟨5, 1, 0⟩⟩,
    ⟨"OX2", "CRB", 1, ⟨20, 0, 0⟩⟩,
    ⟨"OX3", "CRB", 1, ⟨21, 0, 0⟩⟩,
    ⟨"OX2", "CRB", 1, ⟨22, 0, 0⟩⟩],
   [(1, 0), (2, 0), (3, 0), (5, 4), (6, 4), (7, 4)], ⟨1000, 1000, 1000⟩⟩

/-- Detection outcome on `driftState`: a fourth bond lands on carbon 4. -/
def driftDetected : SimState := { driftState with bonds := (1, 4) :: driftState.bonds }

/-- Complete carbonate group whose oxygens are all far outside the cutoff. -/
def farOxState : SimState :=
  ⟨[⟨"CX1", "CRB", 1, ⟨0, 0, 0⟩⟩,
    ⟨"OX1", "CRB", 1, ⟨30, 0, 0⟩⟩,
    ⟨"OX1", "CRB", 1, ⟨40, 0, 0⟩⟩,
    ⟨"OX1", "CRB", 1, ⟨50, 0, 0⟩⟩],
   [(1, 0), (2, 0), (3, 0)], ⟨1000, 1000, 1000⟩⟩

/-- Bond-free carbon with two oxygens inside the cutoff. -/
def twoOxState : SimState :=
  ⟨[⟨"CX1", "CRB", 1, ⟨0, 0, 0⟩⟩,
    ⟨"OX1", "CRB", 1, ⟨1, 0, 0⟩⟩,
    ⟨"OX1", "CRB", 1, ⟨0, 1, 0⟩⟩], [], ⟨100, 100, 100⟩⟩

/-- Carbon with two ideal-length bonds at 120 degrees in the x-y plane
(the exact form of the spec scenario with 0.866 read as the exact
sqrt 3 / 2), plus a free oxygen to be placed by the two-bond rule. -/
def planarState : SimState :=
  ⟨[⟨"CX1", "CRB", 1, ⟨0, 0, 0⟩⟩,
    ⟨"OX1", "CRB", 1, ⟨1.285, 0, 0⟩⟩,
    ⟨"OX1", "CRB", 1, ⟨-(1.285 / 2), 1.285 * (Real.sqrt 3 / 2), 0⟩⟩,
    ⟨"OX1", "CRB", 1, ⟨7, 7, 7⟩⟩],
   [(1, 0), (2, 0)], ⟨1000, 1000, 1000⟩⟩

/-- Outcome of the two-bond placement on `planarState`. -/
def planarResult : SimState :=
  { setPos planarState 3 (place2pos planarState 0) with
    bonds := addBond planarState.bonds 3 0 }

/-- One carbonate group with exactly three oxygens, all inside the bonding
cutoff: the protected body succeeds on it end to end. -/
def goodState : SimState :=
  ⟨[⟨"CX1", "CRB", 1, ⟨0, 0, 0⟩⟩,
    ⟨"OX1", "CRB", 1, ⟨1, 0, 0⟩⟩,
    ⟨"OX1", "CRB", 1, ⟨0, 1, 0⟩⟩,
    ⟨"OX1", "CRB", 1, ⟨0, 0, 1⟩⟩],
   [], ⟨200, 200, 200⟩⟩

/-- Detection outcome on `goodState`. -/
def goodDetected : SimState := { goodState with bonds := [(3, 0), (2, 0), (1, 0)] }

/-- Reference normal found on `goodDetected`. -/
def goodNorm : Vec3 :=
  normalize (cross (miBondVec goodDetected 0 3) (miBondVec goodDetected 0 2))

/-- State of `goodState` after the carbon check renamed the bonded oxygens. -/
def goodChecked : SimState :=
  ⟨[⟨"CX1", "CRB", 1, ⟨0, 0, 0⟩⟩,
    ⟨"OX3", "CRB", 1, ⟨1, 0, 0⟩⟩,
    ⟨"OX2", "CRB", 1, ⟨0, 1, 0⟩⟩,
    ⟨"OX1", "CRB", 1, ⟨0, 0, 1⟩⟩],
   [(3, 0), (2, 0), (1, 0)], ⟨200, 200, 200⟩⟩

/-! General lemmas about the embedded operations. -/

/-- Rounding to the nearest integer maps the open interval `(-1/2, 1/2)` to 0. -/
theorem npRound_small (x : ℝ) (h1 : -(1/2) < x) (h2 : x < 1/2) : npRound x = 0 := by
  unfold npRound
  have hfl : ⌊x⌋ = 0 ∨ ⌊x⌋ = -1 := by
    rcases le_or_lt 0 x with h | h
    · left; exact Int.floor_eq_zero_iff.mpr ⟨h, by linarith⟩
    · right
      have ha : (-1 : ℤ) ≤ ⌊x⌋ := by apply Int.le_floor.mpr; push_cast; linarith
      have hb : ⌊x⌋ < 0 := Int.floor_lt.mpr (by push_cast; linarith)
      omega
  have hfr : Int.fract x ≠ 1/2 := by
    rcases hfl with h | h
    · rw [Int.fract, h]; push_cast; intro hc; rw [sub_zero] at hc; linarith
    · rw [Int.fract, h]; push_cast; intro hc; linarith
  rw [if_neg hfr, round_eq]
  apply Int.floor_eq_zero_iff.mpr
  constructor
  · simp; linarith
  · simp; linarith

/-- A displacement smaller than half the box length is its own minimum image. -/
theorem miWrap_id (d L : ℝ) (h : 2 * |d| < L) : miWrap d L = d := by
  have hL : 0 < L := lt_of_le_of_lt (by positivity) h
  have habs : |d| < L / 2 := by linarith
  rw [abs_lt] at habs
  have h1 : -(1/2) < d / L := by
    rw [neg_lt, ← neg_div, div_lt_iff₀ hL]; linarith
  have h2 : d / L < 1/2 := by
    rw [div_lt_iff₀ hL]; linarith
  rw [miWrap, npRound_small _ h1 h2]
  push_cast; ring

/-- Absolute-value bound from the two one-sided bounds. -/
theorem abs_bound_of (d L : ℝ) (h1 : -L < 2 * d) (h2 : 2 * d < L) : 2 * |d| < L := by
  rcases abs_cases d with ⟨he, _⟩ | ⟨he, _⟩ <;> rw [he] <;> linarith

/-- In-box displacements give the plain squared Euclidean distance. -/
theorem miDist2_eq (a b box : Vec3) (hx : 2 * |a.x - b.x| < box.x)
    (hy : 2 * |a.y - b.y| < box.y) (hz : 2 * |a.z - b.z| < box.z) :
    miDist2 a b box = (a.x - b.x)^2 + (a.y - b.y)^2 + (a.z - b.z)^2 := by
  rw [miDist2, miVec, miWrap_id _ _ hx, miWrap_id _ _ hy, miWrap_id _ _ hz, dot]
  ring

/-- In-box displacements are their own minimum-image vector. -/
theorem miVec_eq (a b box : Vec3) (hx : 2 * |a.x - b.x| < box.x)
    (hy : 2 * |a.y - b.y| < box.y) (hz : 2 * |a.z - b.z| < box.z) :
    miVec a b box = vsub a b := by
  rw [miVec, vsub, miWrap_id _ _ hx, miWrap_id _ _ hy, miWrap_id _ _ hz]

/-- Forming partners of `i` commutes with consing a pair that avoids `i`. -/
theorem partners_cons_ne (p : Nat × Nat) (bs : List (Nat × Nat)) (i : Nat)
    (h1 : p.1 ≠ i) (h2 : p.2 ≠ i) : partners (p :: bs) i = partners bs i := by
  unfold partners
  rw [List.filterMap_cons]
  simp [h1, h2]

/-- Partners of the first endpoint of a freshly consed pair. -/
theorem partners_cons_fst (i j : Nat) (bs : List (Nat × Nat)) :
    partners ((i, j) :: bs) i = j :: partners bs i := by
  unfold partners
  rw [List.filterMap_cons]
  simp

/-- Partners of the second endpoint of a freshly consed pair. -/
theorem partners_cons_snd (i j : Nat) (bs : List (Nat × Nat)) (hne : i ≠ j) :
    partners ((i, j) :: bs) j = i :: partners bs j := by
  unfold partners
  rw [List.filterMap_cons]
  simp [hne]

/-- The pair membership test is symmetric in its two atom arguments. -/
theorem bondMem_comm (bs : List (Nat × Nat)) (i j : Nat) :
    bondMem bs i j = bondMem bs j i := by
  unfold bondMem
  congr 1
  funext p
  by_cases h1 : p.1 = i <;> by_cases h2 : p.2 = j <;>
    by_cases h3 : p.1 = j <;> by_cases h4 : p.2 = i <;> simp [h1, h2, h3, h4]

/-- An atom is listed among the partners of another exactly when the bond
table holds the pair in one of its two orientations. -/
theorem mem_partners_iff (bs : List (Nat × Nat)) (i j : Nat) :
    j ∈ partners bs i ↔ bondMem bs i j = true := by
  unfold partners bondMem
  rw [List.mem_filterMap, List.any_eq_true]
  constructor
  · rintro ⟨p, hp, hf⟩
    refine ⟨p, hp, ?_⟩
    rw [decide_eq_true_eq]
    by_cases h1 : p.1 = i
    · rw [if_pos h1] at hf; left; exact ⟨h1, Option.some.inj hf⟩
    · rw [if_neg h1] at hf
      by_cases h2 : p.2 = i
      · rw [if_pos h2] at hf; right; exact ⟨Option.some.inj hf, h2⟩
      · rw [if_neg h2] at hf; exact absurd hf (by simp)
  · rintro ⟨p, hp, hd⟩
    rw [decide_eq_true_eq] at hd
    refine ⟨p, hp, ?_⟩
    rcases hd with ⟨h1, h2⟩ | ⟨h1, h2⟩
    · rw [if_pos h1, h2]
    · by_cases h3 : p.1 = i
      · rw [if_pos h3]; rw [h3] at h1; rw [h1] at h2; rw [h2]
      · rw [if_neg h3, if_pos h2, h1]

/-- Adding a bond that avoids atom `k` leaves the partners of `k` unchanged. -/
theorem partners_addBond_ne (bs : List (Nat × Nat)) (i j k : Nat)
    (h1 : i ≠ k) (h2 : j ≠ k) : partners (addBond bs i j) k = partners bs k := by
  unfold addBond
  by_cases hm : bondMem bs i j
  · rw [if_pos hm]
  · rw [if_neg hm, partners_cons_ne _ _ _ h1 h2]

/-- Adding an absent bond prepends the new partner of its first endpoint. -/
theorem partners_addBond_fst (bs : List (Nat × Nat)) (i j : Nat)
    (hm : bondMem bs i j ≠ true) : partners (addBond bs i j) i = j :: partners bs i := by
  unfold addBond
  rw [if_neg hm, partners_cons_fst]

/-- Adding an absent bond prepends the new partner of its second endpoint. -/
theorem partners_addBond_snd (bs : List (Nat × Nat)) (i j : Nat)
    (hm : bondMem bs i j ≠ true) (hne : i ≠ j) :
    partners (addBond bs i j) j = i :: partners bs j := by
  unfold addBond
  rw [if_neg hm, partners_cons_snd _ _ _ hne]

/-- An atom with no partner is in no pair of the bond table. -/
theorem bondMem_of_empty_partners (bs : List (Nat × Nat)) (i j : Nat)
    (h : partners bs i = []) : bondMem bs i j ≠ true := by
  intro hm
  have := (mem_partners_iff bs i j).mpr hm
  rw [h] at this
  exact absurd this (List.not_mem_nil j)

/-- Position updates do not touch the bond table. -/
theorem setPos_bonds (s : SimState) (i : Nat) (p : Vec3) : (setPos s i p).bonds = s.bonds := rfl

/-- Position updates do not touch the box. -/
theorem setPos_box (s : SimState) (i : Nat) (p : Vec3) : (setPos s i p).box = s.box := rfl

/-- A detection step never changes the atom list. -/
theorem detectStep_atoms (cars : List Nat) (s : SimState) (o : Nat) :
    (detectStep cars s o).atoms = s.atoms := by
  unfold detectStep
  rcases candidates s cars o with _ | ⟨c, _ | ⟨d, t⟩⟩ <;> rfl

/-- A detection step never changes the box. -/
theorem detectStep_box (cars : List Nat) (s : SimState) (o : Nat) :
    (detectStep cars s o).box = s.box := by
  unfold detectStep
  rcases candidates s cars o with _ | ⟨c, _ | ⟨d, t⟩⟩ <;> rfl

/-- Detection never changes the atom list. -/
theorem detectBonds_atoms (cars oxs : List Nat) (s : SimState) :
    (detectBonds cars oxs s).atoms = s.atoms := by
  induction oxs generalizing s with
  | nil => rfl
  | cons x rest ih =>
    unfold detectBonds at ih ⊢
    rw [List.foldl_cons, ih, detectStep_atoms]

/-- Detection never changes the box. -/
theorem detectBonds_box (cars oxs : List Nat) (s : SimState) :
    (detectBonds cars oxs s).box = s.box := by
  induction oxs generalizing s with
  | nil => rfl
  | cons x rest ih =>
    unfold detectBonds at ih ⊢
    rw [List.foldl_cons, ih, detectStep_box]

/-- The candidate list only looks at positions and the box. -/
theorem candidates_congr (s t : SimState) (cars : List Nat) (o : Nat)
    (ha : t.atoms = s.atoms) (hb : t.box = s.box) :
    candidates t cars o = candidates s cars o := by
  unfold candidates getAtom
  rw [ha, hb]

/-- Candidate carbons are drawn from the carbon group. -/
theorem candidates_subset (s : SimState) (cars : List Nat) (o c : Nat)
    (h : c ∈ candidates s cars o) : c ∈ cars :=
  List.mem_of_mem_filter h

/-- Matching partner lists give matching pair membership. -/
theorem bondMem_congr_partners (bs bs2 : List (Nat × Nat)) (o : Nat)
    (h : partners bs2 o = partners bs o) (c : Nat) : bondMem bs2 o c = bondMem bs o c := by
  rcases hb : bondMem bs o c with _ | _
  · rcases hb2 : bondMem bs2 o c with _ | _
    · rfl
    · have := (mem_partners_iff bs2 o c).mpr hb2
      rw [h, mem_partners_iff, hb] at this
      exact absurd this (by simp)
  · rcases hb2 : bondMem bs2 o c with _ | _
    · have := (mem_partners_iff bs o c).mpr hb
      rw [← h, mem_partners_iff, hb2] at this
      exact absurd this (by simp)
    · rfl

/-- A detection step for one oxygen leaves the partner list of any atom that
is neither that oxygen nor a carbon unchanged. -/
theorem detectStep_partners_ne (cars : List Nat) (s : SimState) (x o : Nat)
    (hxo : x ≠ o) (ho : o ∉ cars) :
    partners (detectStep cars s x).bonds o = partners s.bonds o := by
  unfold detectStep
  rcases hc : candidates s cars x with _ | ⟨c, _ | ⟨d, t⟩⟩
  · rfl
  · have hcc : c ∈ cars :=
      candidates_subset s cars x c (by rw [hc]; exact List.mem_singleton.mpr rfl)
    have hco : c ≠ o := fun h => ho (h ▸ hcc)
    exact partners_addBond_ne s.bonds x c o hxo hco
  · rfl

/-- Detection over oxygens not containing `o` leaves the partner list of `o`
unchanged, provided `o` is not a carbon. -/
theorem detectBonds_partners_notmem (cars oxs : List Nat) :
    ∀ (s : SimState) (o : Nat), o ∉ oxs → o ∉ cars →
    partners (detectBonds cars oxs s).bonds o = partners s.bonds o := by
  induction oxs with
  | nil => intro s o _ _; rfl
  | cons x rest ih =>
    intro s o hox ho
    unfold detectBonds at ih ⊢
    rw [List.foldl_cons,
        ih (detectStep cars s x) o (fun h => hox (List.mem_cons_of_mem x h)) ho,
        detectStep_partners_ne cars s x o (fun h => hox (h ▸ List.mem_cons_self x rest)) ho]

/-- Detection at an oxygen with exactly one candidate carbon inserts the
pair unless it is already present. -/
theorem detect_partners_one (cars oxs : List Nat) :
    ∀ (s : SimState) (o c : Nat), oxs.Nodup → (∀ x ∈ oxs, x ∉ cars) → o ∈ oxs →
    candidates s cars o = [c] →
    partners (detectBonds cars oxs s).bonds o =
      (if bondMem s.bonds o c then partners s.bonds o else c :: partners s.bonds o) := by
  induction oxs with
  | nil => intro s o c _ _ ho _; exact absurd ho (List.not_mem_nil o)
  | cons x rest ih =>
    intro s o c hnd hdisj ho hc
    unfold detectBonds
    rw [List.foldl_cons]
    rcases List.mem_cons.mp ho with rfl | hor
    · have hox : o ∉ rest := (List.nodup_cons.mp hnd).1
      have hoc : o ∉ cars := hdisj o (List.mem_cons_self o rest)
      have hstep : detectStep cars s o = { s with bonds := addBond s.bonds o c } := by
        unfold detectStep; rw [hc]
      rw [show List.foldl (detectStep cars) (detectStep cars s o) rest
            = detectBonds cars rest (detectStep cars s o) from rfl,
          detectBonds_partners_notmem cars rest _ o hox hoc, hstep]
      rcases hm : bondMem s.bonds o c with _ | _
      · rw [if_neg (by simp)]
        exact partners_addBond_fst s.bonds o c (by rw [hm]; simp)
      · rw [if_pos (by simp), show ({ s with bonds := addBond s.bonds o c } :
              SimState).bonds = addBond s.bonds o c from rfl]
        unfold addBond
        rw [if_pos hm]
    · have hxo : x ≠ o := by
        rintro rfl
        exact (List.nodup_cons.mp hnd).1 hor
      have hoc : o ∉ cars := hdisj o (List.mem_cons_of_mem x hor)
      have hpre : partners (detectStep cars s x).bonds o = partners s.bonds o :=
        detectStep_partners_ne cars s x o hxo hoc
      have hcand : candidates (detectStep cars s x) cars o = [c] := by
        rw [candidates_congr s (detectStep cars s x) cars o
              (detectStep_atoms cars s x) (detectStep_box cars s x), hc]
      rw [show List.foldl (detectStep cars) (detectStep cars s x) rest
            = detectBonds cars rest (detectStep cars s x) from rfl,
          ih (detectStep cars s x) o c (List.nodup_cons.mp hnd).2
            (fun y hy => hdisj y (List.mem_cons_of_mem x hy)) hor hcand,
          bondMem_congr_partners s.bonds (detectStep cars s x).bonds o hpre c, hpre]

/-- Detection at an oxygen whose candidate list is not a singleton leaves
its partner list unchanged. -/
theorem detect_partners_other (cars oxs : List Nat) :
    ∀ (s : SimState) (o : Nat), oxs.Nodup → (∀ x ∈ oxs, x ∉ cars) → o ∈ oxs →
    (∀ c, candidates s cars o ≠ [c]) →
    partners (detectBonds cars oxs s).bonds o = partners s.bonds o := by
  induction oxs with
  | nil => intro s o _ _ ho _; exact absurd ho (List.not_mem_nil o)
  | cons x rest ih =>
    intro s o hnd hdisj ho hc
    unfold detectBonds
    rw [List.foldl_cons]
    rcases List.mem_cons.mp ho with rfl | hor
    · have hox : o ∉ rest := (List.nodup_cons.mp hnd).1
      have hoc : o ∉ cars := hdisj o (List.mem_cons_self o rest)
      have hstep : detectStep cars s o = s := by
        unfold detectStep
        rcases hcc : candidates s cars o with _ | ⟨c, _ | ⟨d, t⟩⟩
        · rfl
        · exact absurd hcc (hc c)
        · rfl
      rw [show List.foldl (detectStep cars) (detectStep cars s o) rest
            = detectBonds cars rest (detectStep cars s o) from rfl,
          detectBonds_partners_notmem cars rest _ o hox hoc, hstep]
    · have hxo : x ≠ o := by
        rintro rfl
        exact (List.nodup_cons.mp hnd).1 hor
      have hoc : o ∉ cars := hdisj o (List.mem_cons_of_mem x hor)
      have hcand : ∀ c, candidates (detectStep cars s x) cars o ≠ [c] := by
        intro c
        rw [candidates_congr s (detectStep cars s x) cars o
              (detectStep_atoms cars s x) (detectStep_box cars s x)]
        exact hc c
      rw [show List.foldl (detectStep cars) (detectStep cars s x) rest
            = detectBonds cars rest (detectStep cars s x) from rfl,
          ih (detectStep cars s x) o (List.nodup_cons.mp hnd).2
            (fun y hy => hdisj y (List.mem_cons_of_mem x hy)) hor hcand,
          detectStep_partners_ne cars s x o hxo hoc]

/-- The inner completion scan skips a carbon group whose members all hold
3 bonds and leaves the state unchanged. -/
theorem completionInner_all3 (n : Vec3) (o : Nat) (cars : List Nat) (s : SimState)
    (h : ∀ c ∈ cars, bondCount s c = 3) : completionInner n o cars s = .ok s := by
  induction cars with
  | nil => rfl
  | cons c rest ih =>
    unfold completionInner
    rw [if_pos (h c (List.mem_cons_self c rest))]
    exact ih (fun d hd => h d (List.mem_cons_of_mem c hd))

/-- The completion pass is the identity when every carbon holds 3 bonds. -/
theorem completionPass_all3 (n : Vec3) (cars oxs : List Nat) (s : SimState)
    (h : ∀ c ∈ cars, bondCount s c = 3) : completionPass n cars oxs s = .ok s := by
  induction oxs with
  | nil => rfl
  | cons o rest ih =>
    unfold completionPass at ih ⊢
    rw [List.foldlM_cons]
    have hstep : completionStep n cars s o = .ok s := by
      unfold completionStep
      by_cases ho : bondCount s o = 0
      · rw [if_pos ho]; exact completionInner_all3 n o cars s h
      · rw [if_neg ho]
    rw [hstep]
    exact ih

/-- The inner completion scan either succeeds or fails with the zero-bond
carbon message, carrying the unchanged entry state. -/
theorem completionInner_shape (n : Vec3) (o : Nat) (cars : List Nat) (s : SimState) :
    (∃ t, completionInner n o cars s = .ok t) ∨
    (∃ c, c ∈ cars ∧ completionInner n o cars s = .error (s, zeroBondMsg c)) := by
  induction cars with
  | nil => exact Or.inl ⟨s, rfl⟩
  | cons c rest ih =>
    unfold completionInner
    by_cases h3 : bondCount s c = 3
    · rw [if_pos h3]
      rcases ih with ⟨t, ht⟩ | ⟨d, hd, he⟩
      · exact Or.inl ⟨t, ht⟩
      · exact Or.inr ⟨d, List.mem_cons_of_mem c hd, he⟩
    · rw [if_neg h3]
      by_cases h2 : bondCount s c = 2
      · rw [if_pos h2]; exact Or.inl ⟨_, rfl⟩
      · rw [if_neg h2]
        by_cases h1 : bondCount s c = 1
        · rw [if_pos h1]; exact Or.inl ⟨_, rfl⟩
        · rw [if_neg h1]
          by_cases h0 : bondCount s c = 0
          · rw [if_pos h0]
            exact Or.inr ⟨c, List.mem_cons_self c rest, rfl⟩
          · rw [if_neg h0]
            rcases ih with ⟨t, ht⟩ | ⟨d, hd, he⟩
            · exact Or.inl ⟨t, ht⟩
            · exact Or.inr ⟨d, List.mem_cons_of_mem c hd, he⟩

/-- A completion step either succeeds or fails with the zero-bond carbon
message, carrying the unchanged entry state. -/
theorem completionStep_shape (n : Vec3) (cars : List Nat) (s : SimState) (o : Nat) :
    (∃ t, completionStep n cars s o = .ok t) ∨
    (∃ c, c ∈ cars ∧ completionStep n cars s o = .error (s, zeroBondMsg c)) := by
  unfold completionStep
  by_cases ho : bondCount s o = 0
  · rw [if_pos ho]; exact completionInner_shape n o cars s
  · rw [if_neg ho]; exact Or.inl ⟨s, rfl⟩

/-- The completion pass either succeeds or fails with the zero-bond carbon
message of some carbon of the group; it raises no other condition. -/
theorem completionPass_shape (n : Vec3) (cars oxs : List Nat) :
    ∀ s : SimState, (∃ t, completionPass n cars oxs s = .ok t) ∨
    (∃ t c, c ∈ cars ∧ completionPass n cars oxs s = .error (t, zeroBondMsg c)) := by
  induction oxs with
  | nil => intro s; exact Or.inl ⟨s, rfl⟩
  | cons o rest ih =>
    intro s
    unfold completionPass at ih ⊢
    rw [List.foldlM_cons]
    rcases completionStep_shape n cars s o with ⟨t, ht⟩ | ⟨c, hc, he⟩
    · rw [ht]
      exact ih t
    · rw [he]
      exact Or.inr ⟨s, c, hc, rfl⟩

/-- The inner completion scan takes the first carbon that is not fully
bonded; with two existing bonds there the free oxygen is placed by the
two-bond rule and one bond is registered. -/
theorem completionInner_sel2 (n : Vec3) (o : Nat) (pre post : List Nat) (c : Nat)
    (s : SimState) (hpre : ∀ x ∈ pre, bondCount s x = 3) (hc : bondCount s c = 2) :
    completionInner n o (pre ++ c :: post) s =
      .ok { setPos s o (place2pos s c) with bonds := addBond s.bonds o c } := by
  induction pre with
  | nil =>
    rw [List.nil_append]
    unfold completionInner
    rw [if_neg (by rw [hc]; simp), if_pos hc]
    rfl
  | cons x xs ih =>
    rw [List.cons_append]
    unfold completionInner
    rw [if_pos (hpre x (List.mem_cons_self x _))]
    exact ih (fun y hy => hpre y (List.mem_cons_of_mem x hy))

/-- The inner completion scan takes the first carbon that is not fully
bonded; with one existing bond there the free oxygen is placed by the
rotation rule and one bond is registered. -/
theorem completionInner_sel1 (n : Vec3) (o : Nat) (pre post : List Nat) (c : Nat)
    (s : SimState) (hpre : ∀ x ∈ pre, bondCount s x = 3) (hc : bondCount s c = 1) :
    completionInner n o (pre ++ c :: post) s =
      .ok { setPos s o (place1pos n s c) with bonds := addBond s.bonds o c } := by
  induction pre with
  | nil =>
    rw [List.nil_append]
    unfold completionInner
    rw [if_neg (by rw [hc]; simp), if_neg (by rw [hc]; simp), if_pos hc]
    rfl
  | cons x xs ih =>
    rw [List.cons_append]
    unfold completionInner
    rw [if_pos (hpre x (List.mem_cons_self x _))]
    exact ih (fun y hy => hpre y (List.mem_cons_of_mem x hy))

/-- The inner completion scan fails when the first carbon that is not fully
bonded has no bonds at all. -/
theorem completionInner_sel0 (n : Vec3) (o : Nat) (pre post : List Nat) (c : Nat)
    (s : SimState) (hpre : ∀ x ∈ pre, bondCount s x = 3) (hc : bondCount s c = 0) :
    completionInner n o (pre ++ c :: post) s = .error (s, zeroBondMsg c) := by
  induction pre with
  | nil =>
    rw [List.nil_append]
    unfold completionInner
    rw [if_neg (by rw [hc]; simp), if_neg (by rw [hc]; simp),
        if_neg (by rw [hc]; simp), if_pos hc]
  | cons x xs ih =>
    rw [List.cons_append]
    unfold completionInner
    rw [if_pos (hpre x (List.mem_cons_self x _))]
    exact ih (fun y hy => hpre y (List.mem_cons_of_mem x hy))

/-- A successful inner scan leaves the bond table unchanged or inserts one
pair joining the scanned oxygen to a carbon of the group. -/
theorem completionInner_bonds (n : Vec3) (o : Nat) (cars : List Nat) (s t : SimState)
    (h : completionInner n o cars s = .ok t) :
    t.bonds = s.bonds ∨ ∃ c ∈ cars, t.bonds = addBond s.bonds o c := by
  induction cars with
  | nil =>
    unfold completionInner at h
    rw [show s = t from congrArg (fun r => match r with | .ok v => v | .error _ => s)
      h]
    exact Or.inl rfl
  | cons c rest ih =>
    unfold completionInner at h
    by_cases h3 : bondCount s c = 3
    · rw [if_pos h3] at h
      rcases ih h with hb | ⟨d, hd, hb⟩
      · exact Or.inl hb
      · exact Or.inr ⟨d, List.mem_cons_of_mem c hd, hb⟩
    · rw [if_neg h3] at h
      by_cases h2 : bondCount s c = 2
      · rw [if_pos h2] at h
        cases h
        exact Or.inr ⟨c, List.mem_cons_self c rest, rfl⟩
      · rw [if_neg h2] at h
        by_cases h1 : bondCount s c = 1
        · rw [if_pos h1] at h
          cases h
          exact Or.inr ⟨c, List.mem_cons_self c rest, rfl⟩
        · rw [if_neg h1] at h
          by_cases h0 : bondCount s c = 0
          · rw [if_pos h0] at h
            exact absurd h (by simp)
          · rw [if_neg h0] at h
            rcases ih h with hb | ⟨d, hd, hb⟩
            · exact Or.inl hb
            · exact Or.inr ⟨d, List.mem_cons_of_mem c hd, hb⟩

/-- Registering one bond raises any partner count by at most one. -/
theorem partners_addBond_le (bs : List (Nat × Nat)) (i j k : Nat) :
    (partners (addBond bs i j) k).length ≤ (partners bs k).length + 1 := by
  unfold addBond
  by_cases hm : bondMem bs i j
  · rw [if_pos hm]; omega
  · rw [if_neg hm]
    unfold partners
    rw [List.filterMap_cons]
    by_cases h1 : i = k <;> by_cases h2 : j = k <;>
      simp [h1, h2]

/-- A failing completion step carries the unchanged entry state. -/
theorem completionStep_err (n : Vec3) (cars : List Nat) (s : SimState) (o : Nat)
    (e : SimState × String) (h : completionStep n cars s o = .error e) : e.1 = s := by
  rcases completionStep_shape n cars s o with ⟨t, ht⟩ | ⟨c, _, he⟩
  · rw [ht] at h
    exact absurd h (by simp)
  · rw [he] at h
    rw [← Except.error.inj h]

/-- A successful completion step keeps every atom outside the carbon group
at no more than one bond. -/
theorem completionStep_count_le (n : Vec3) (cars : List Nat) (s : SimState) (o a : Nat)
    (t : SimState) (ha : a ∉ cars) (hle : bondCount s a ≤ 1)
    (h : completionStep n cars s o = .ok t) : bondCount t a ≤ 1 := by
  unfold completionStep at h
  by_cases ho : bondCount s o = 0
  · rw [if_pos ho] at h
    rcases completionInner_bonds n o cars s t h with hb | ⟨c, hc, hb⟩
    · unfold bondCount bondedTo at hle ⊢
      rw [hb]; exact hle
    · unfold bondCount bondedTo at hle ho ⊢
      rw [hb]
      by_cases hao : a = o
      · subst hao
        have hlen := partners_addBond_le s.bonds a c a
        omega
      · have hac : c ≠ a := fun hh => ha (hh ▸ hc)
        rw [partners_addBond_ne s.bonds o c a (fun hh => hao hh.symm) hac]
        exact hle
  · rw [if_neg ho] at h
    cases h
    exact hle

/-- The completion pass keeps every atom outside the carbon group at no more
than one bond, in the success state as well as in the diagnostic state
carried by a failure. -/
theorem completionPass_count_le (n : Vec3) (cars oxs : List Nat) (a : Nat) (ha : a ∉ cars) :
    ∀ s : SimState, bondCount s a ≤ 1 →
      ((∀ t, completionPass n cars oxs s = .ok t → bondCount t a ≤ 1) ∧
       (∀ e, completionPass n cars oxs s = .error e → bondCount e.1 a ≤ 1)) := by
  induction oxs with
  | nil =>
    intro s hle
    constructor
    · intro t h
      unfold completionPass at h
      rw [List.foldlM_nil] at h
      exact Except.ok.inj h ▸ hle
    · intro e h
      unfold completionPass at h
      rw [List.foldlM_nil] at h
      exact Except.noConfusion h
  | cons o rest ih =>
    intro s hle
    unfold completionPass
    rw [List.foldlM_cons]
    cases hstep : completionStep n cars s o with
    | error e =>
      constructor
      · intro t h
        exact Except.noConfusion h
      · intro e2 h
        rw [← Except.error.inj h, completionStep_err n cars s o e hstep]
        exact hle
    | ok t =>
      have ht : bondCount t a ≤ 1 := completionStep_count_le n cars s o a t ha hle hstep
      constructor
      · intro t2 h
        exact (ih t ht).1 t2 h
      · intro e h
        exact (ih t ht).2 e h

/-- The oxygen group lists each index once. -/
theorem oxygens_nodup (s : SimState) : (oxygens s).Nodup :=
  List.Nodup.filter _ (List.nodup_range _)

/-- No index is both in the oxygen group and in the carbon group. -/
theorem oxygens_disjoint (s : SimState) : ∀ x ∈ oxygens s, x ∉ carbons s := by
  intro x hx hc
  unfold oxygens selectName at hx
  unfold carbons selectName at hc
  have h1 := (List.mem_filter.mp hx).2
  have h2 := (List.mem_filter.mp hc).2
  rw [decide_eq_true_eq] at h1 h2
  rw [h1.1] at h2
  exact absurd h2.1 (by simp)

/-- Modifying an atom keeps the length of the atom list. -/
theorem modifyIdx_length (l : List Atom) (i : Nat) (f : Atom → Atom) :
    (modifyIdx l i f).length = l.length := by
  induction l generalizing i with
  | nil => rfl
  | cons a t ih =>
    cases i with
    | zero => rfl
    | succ n => exact congrArg Nat.succ (ih n)

/-- Modifying one atom leaves the others in place. -/
theorem modifyIdx_getD_ne (l : List Atom) (i j : Nat) (f : Atom → Atom) (d : Atom)
    (h : i ≠ j) : (modifyIdx l i f).getD j d = l.getD j d := by
  induction l generalizing i j with
  | nil => rfl
  | cons a t ih =>
    cases i with
    | zero =>
      cases j with
      | zero => exact absurd rfl h
      | succ m => rfl
    | succ n =>
      cases j with
      | zero => rfl
      | succ m => exact ih n m (fun hh => h (congrArg Nat.succ hh))

/-- Modifying an atom in range applies the function at that index. -/
theorem modifyIdx_getD_eq (l : List Atom) (i : Nat) (f : Atom → Atom) (d : Atom)
    (h : i < l.length) : (modifyIdx l i f).getD i d = f (l.getD i d) := by
  induction l generalizing i with
  | nil => exact absurd h (by simp)
  | cons a t ih =>
    cases i with
    | zero => rfl
    | succ n => exact ih n (Nat.lt_of_succ_lt_succ h)

/-- Residue assignment to one atom does not change any atom name. -/
theorem setResidue_name (s : SimState) (i : Nat) (rn : String) (rid : Nat) (j : Nat) :
    (getAtom (setResidue s i rn rid) j).name = (getAtom s j).name := by
  unfold getAtom setResidue
  by_cases hij : i = j
  · subst hij
    by_cases hl : i < s.atoms.length
    · rw [modifyIdx_getD_eq s.atoms i _ dfltAtom hl]
    · rw [List.getD_eq_default, List.getD_eq_default] <;>
        simp [modifyIdx_length, Nat.le_of_not_lt hl]
  · rw [modifyIdx_getD_ne s.atoms i j _ dfltAtom hij]

/-- Residue assignment to one atom does not change any position. -/
theorem setResidue_pos (s : SimState) (i : Nat) (rn : String) (rid : Nat) (j : Nat) :
    (getAtom (setResidue s i rn rid) j).pos = (getAtom s j).pos := by
  unfold getAtom setResidue
  by_cases hij : i = j
  · subst hij
    by_cases hl : i < s.atoms.length
    · rw [modifyIdx_getD_eq s.atoms i _ dfltAtom hl]
    · rw [List.getD_eq_default, List.getD_eq_default] <;>
        simp [modifyIdx_length, Nat.le_of_not_lt hl]
  · rw [modifyIdx_getD_ne s.atoms i j _ dfltAtom hij]

/-- Residue assignment sets the residue id of its target atom. -/
theorem setResidue_resid_eq (s : SimState) (i : Nat) (rn : String) (rid : Nat)
    (h : i < s.atoms.length) : (getAtom (setResidue s i rn rid) i).resid = rid := by
  unfold getAtom setResidue
  rw [modifyIdx_getD_eq s.atoms i _ dfltAtom h]

/-- Residue assignment leaves the residue ids of other atoms alone. -/
theorem setResidue_resid_ne (s : SimState) (i : Nat) (rn : String) (rid : Nat) (j : Nat)
    (h : i ≠ j) : (getAtom (setResidue s i rn rid) j).resid = (getAtom s j).resid := by
  unfold getAtom setResidue
  rw [modifyIdx_getD_ne s.atoms i j _ dfltAtom h]

/-- Residue assignment does not change the bond table. -/
theorem setResidue_bonds (s : SimState) (i : Nat) (rn : String) (rid : Nat) :
    (setResidue s i rn rid).bonds = s.bonds := rfl

/-- Residue assignment does not change the number of atoms. -/
theorem setResidue_length (s : SimState) (i : Nat) (rn : String) (rid : Nat) :
    (setResidue s i rn rid).atoms.length = s.atoms.length :=
  modifyIdx_length s.atoms i _

/-- Residue assignment never lowers an already-matching residue id. -/
theorem setResidue_resid_keep (s : SimState) (i : Nat) (rn : String) (rid : Nat) (j : Nat)
    (h : (getAtom s j).resid = rid) : (getAtom (setResidue s i rn rid) j).resid = rid := by
  by_cases hij : i = j
  · subst hij
    by_cases hl : i < s.atoms.length
    · exact setResidue_resid_eq s i rn rid hl
    · rw [setResidue, getAtom] at *
      rw [List.getD_eq_default _ _ (by simp [modifyIdx_length, Nat.le_of_not_lt hl])]
      rw [List.getD_eq_default _ _ (Nat.le_of_not_lt hl)] at h
      exact h
  · rw [setResidue_resid_ne s i rn rid j hij]
    exact h

/-- Folding residue assignment over a partner list keeps all names. -/
theorem foldResidue_name (bl : List Nat) (rn : String) (rid : Nat) :
    ∀ (st : SimState) (j : Nat),
    (getAtom (bl.foldl (fun t b => setResidue t b rn rid) st) j).name
      = (getAtom st j).name := by
  induction bl with
  | nil => intro st j; rfl
  | cons b bs ih =>
    intro st j
    rw [List.foldl_cons, ih (setResidue st b rn rid) j, setResidue_name]

/-- Folding residue assignment over a partner list keeps all positions. -/
theorem foldResidue_pos (bl : List Nat) (rn : String) (rid : Nat) :
    ∀ (st : SimState) (j : Nat),
    (getAtom (bl.foldl (fun t b => setResidue t b rn rid) st) j).pos
      = (getAtom st j).pos := by
  induction bl with
  | nil => intro st j; rfl
  | cons b bs ih =>
    intro st j
    rw [List.foldl_cons, ih (setResidue st b rn rid) j, setResidue_pos]

/-- Folding residue assignment over a partner list keeps the bond table. -/
theorem foldResidue_bonds (bl : List Nat) (rn : String) (rid : Nat) :
    ∀ st : SimState, (bl.foldl (fun t b => setResidue t b rn rid) st).bonds = st.bonds := by
  induction bl with
  | nil => intro st; rfl
  | cons b bs ih =>
    intro st
    rw [List.foldl_cons, ih (setResidue st b rn rid), setResidue_bonds]

/-- Folding residue assignment over a partner list keeps the atom count. -/
theorem foldResidue_length (bl : List Nat) (rn : String) (rid : Nat) :
    ∀ st : SimState,
    (bl.foldl (fun t b => setResidue t b rn rid) st).atoms.length = st.atoms.length := by
  induction bl with
  | nil => intro st; rfl
  | cons b bs ih =>
    intro st
    rw [List.foldl_cons, ih (setResidue st b rn rid), setResidue_length]

/-- Folding residue assignment preserves a residue id equal to the one
being written. -/
theorem foldResidue_keep (bl : List Nat) (rn : String) (rid : Nat) :
    ∀ (st : SimState) (j : Nat), (getAtom st j).resid = rid →
    (getAtom (bl.foldl (fun t b => setResidue t b rn rid) st) j).resid = rid := by
  induction bl with
  | nil => intro st j h; exact h
  | cons b bs ih =>
    intro st j h
    rw [List.foldl_cons]
    exact ih (setResidue st b rn rid) j (setResidue_resid_keep st b rn rid j h)

/-- Folding residue assignment leaves atoms outside the partner list alone. -/
theorem foldResidue_ne (bl : List Nat) (rn : String) (rid : Nat) :
    ∀ (st : SimState) (j : Nat), j ∉ bl →
    (getAtom (bl.foldl (fun t b => setResidue t b rn rid) st) j).resid
      = (getAtom st j).resid := by
  induction bl with
  | nil => intro st j _; rfl
  | cons b bs ih =>
    intro st j hj
    rw [List.foldl_cons,
        ih (setResidue st b rn rid) j (fun h => hj (List.mem_cons_of_mem b h)),
        setResidue_resid_ne st b rn rid j (fun h => hj (h ▸ List.mem_cons_self b bs))]

/-- Renaming one atom does not change the bond table. -/
theorem setName_bonds (s : SimState) (i : Nat) (nm : String) :
    (setName s i nm).bonds = s.bonds := rfl

/-- Renaming the partners of a carbon does not change the bond table. -/
theorem renameBonded_bonds (s : SimState) (c : Nat) : (renameBonded s c).bonds = s.bonds := by
  unfold renameBonded
  generalize (bondedTo s c).enum = l
  induction l generalizing s with
  | nil => rfl
  | cons p t ih =>
    rw [List.foldl_cons]
    rw [ih (setName s p.2 ("OX" ++ toString (p.1 + 1)))]
    rfl

/-- A successful carbon check keeps the bond table. -/
theorem checkCarbons_bonds (cars : List Nat) :
    ∀ (s t : SimState), checkCarbons cars s = .ok t → t.bonds = s.bonds := by
  induction cars with
  | nil =>
    intro s t h
    unfold checkCarbons at h
    rw [List.foldlM_nil] at h
    rw [← Except.ok.inj h]
  | cons c rest ih =>
    intro s t h
    unfold checkCarbons at ih h
    rw [List.foldlM_cons] at h
    unfold checkCarbon at h
    by_cases h3 : bondCount s c = 3
    · rw [if_pos h3] at h
      rw [ih (renameBonded s c) t h, renameBonded_bonds]
    · rw [if_neg h3] at h
      exact Except.noConfusion h

/-- A successful carbon check certifies that every carbon of the group holds
exactly 3 bonds. -/
theorem checkCarbons_count (cars : List Nat) :
    ∀ (s t : SimState), checkCarbons cars s = .ok t → ∀ c ∈ cars, bondCount s c = 3 := by
  induction cars with
  | nil => intro s t _ c hc; exact absurd hc (List.not_mem_nil c)
  | cons c rest ih =>
    intro s t h d hd
    unfold checkCarbons at ih h
    rw [List.foldlM_cons] at h
    unfold checkCarbon at h
    by_cases h3 : bondCount s c = 3
    · rw [if_pos h3] at h
      rcases List.mem_cons.mp hd with rfl | hdr
      · exact h3
      · have hv := ih (renameBonded s c) t h d hdr
        unfold bondCount bondedTo at hv ⊢
        rw [renameBonded_bonds] at hv
        exact hv
    · rw [if_neg h3] at h
      exact Except.noConfusion h

/-- One residue-assignment step keeps bonds, atom count, names and positions. -/
theorem assignStep_preserve (st : SimState) (ic ica i : Nat) (t : SimState) (ic2 ica2 : Nat)
    (h : assignStep (st, ic, ica) i = .ok (t, ic2, ica2)) :
    t.bonds = st.bonds ∧ t.atoms.length = st.atoms.length ∧
    (∀ j, (getAtom t j).name = (getAtom st j).name) ∧
    (∀ j, (getAtom t j).pos = (getAtom st j).pos) := by
  unfold assignStep at h
  by_cases hcx : (getAtom st i).name = "CX1"
  · rw [if_pos hcx] at h
    injection h with h1
    injection h1 with ht hrest
    rw [← ht]
    refine ⟨?_, ?_, ?_, ?_⟩
    · rw [foldResidue_bonds, setResidue_bonds]
    · rw [foldResidue_length, setResidue_length]
    · intro j; rw [foldResidue_name, setResidue_name]
    · intro j; rw [foldResidue_pos, setResidue_pos]
  · rw [if_neg hcx] at h
    by_cases hca : (getAtom st i).name = "CA"
    · rw [if_pos hca] at h
      by_cases h0 : bondCount st i = 0
      · rw [if_pos h0] at h
        injection h with h1
        injection h1 with ht hrest
        rw [← ht]
        refine ⟨rfl, ?_, fun j => ?_, fun j => ?_⟩
        · exact setResidue_length st i "CA" _
        · exact setResidue_name st i "CA" _ j
        · exact setResidue_pos st i "CA" _ j
      · rw [if_neg h0] at h
        exact absurd h (by simp)
    · rw [if_neg hca] at h
      injection h with h1
      injection h1 with ht hrest
      rw [← ht]
      exact ⟨rfl, rfl, fun j => rfl, fun j => rfl⟩

/-- The residue-assignment fold keeps bonds, atom count, names and positions. -/
theorem assignFold_preserve (idxs : List Nat) :
    ∀ (st : SimState) (ic ica : Nat) (t : SimState) (ic2 ica2 : Nat),
    idxs.foldlM assignStep (st, ic, ica) = .ok (t, ic2, ica2) →
    t.bonds = st.bonds ∧ t.atoms.length = st.atoms.length ∧
    (∀ j, (getAtom t j).name = (getAtom st j).name) ∧
    (∀ j, (getAtom t j).pos = (getAtom st j).pos) := by
  induction idxs with
  | nil =>
    intro st ic ica t ic2 ica2 h
    rw [List.foldlM_nil] at h
    injection h with h1
    injection h1 with ht hrest
    rw [← ht]
    exact ⟨rfl, rfl, fun j => rfl, fun j => rfl⟩
  | cons x rest ih =>
    intro st ic ica t ic2 ica2 h
    rw [List.foldlM_cons] at h
    cases hstep : assignStep (st, ic, ica) x with
    | error e =>
      rw [hstep] at h
      exact Except.noConfusion h
    | ok v =>
      obtain ⟨t1, ic1, ica1⟩ := v
      rw [hstep] at h
      obtain ⟨hb, hl, hn, hp⟩ := ih t1 ic1 ica1 t ic2 ica2 h
      obtain ⟨hb2, hl2, hn2, hp2⟩ := assignStep_preserve st ic ica x t1 ic1 ica1 hstep
      exact ⟨hb.trans hb2, hl.trans hl2,
             fun j => (hn j).trans (hn2 j), fun j => (hp j).trans (hp2 j)⟩

/-- Core induction for residue assignment over an arbitrary index list:
carbonate atoms receive consecutive ids from the carbonate counter, calcium
atoms receive consecutive ids from the calcium counter, and an atom that is
neither listed nor bonded to a listed carbonate atom keeps its id.  The
no-carbon-carbon hypothesis rules out a carbonate atom overwriting the id of
another carbonate or calcium atom through the bonded-partner loop. -/
theorem assign_go (idxs : List Nat) :
    ∀ (st : SimState) (ic ica : Nat) (t : SimState) (ic2 ica2 : Nat),
    idxs.Nodup →
    (∀ i ∈ idxs, i < st.atoms.length) →
    (∀ i ∈ idxs, (getAtom st i).name = "CX1" →
       ∀ b ∈ partners st.bonds i,
         (getAtom st b).name ≠ "CX1" ∧ (getAtom st b).name ≠ "CA") →
    idxs.foldlM assignStep (st, ic, ica) = .ok (t, ic2, ica2) →
    ((idxs.filter (fun i => (getAtom st i).name = "CX1")).map
        (fun i => (getAtom t i).resid)
      = List.range' ic (idxs.filter (fun i => (getAtom st i).name = "CX1")).length ∧
     (idxs.filter (fun i => (getAtom st i).name = "CA")).map
        (fun i => (getAtom t i).resid)
      = List.range' ica (idxs.filter (fun i => (getAtom st i).name = "CA")).length ∧
     (∀ j, j ∉ idxs →
        (∀ i ∈ idxs, (getAtom st i).name = "CX1" → j ∉ partners st.bonds i) →
        (getAtom t j).resid = (getAtom st j).resid)) := by
  induction idxs with
  | nil =>
    intro st ic ica t ic2 ica2 _ _ _ h
    rw [List.foldlM_nil] at h
    injection h with h1
    injection h1 with ht hrest
    rw [← ht]
    exact ⟨rfl, rfl, fun j _ _ => rfl⟩
  | cons x rest ih =>
    intro st ic ica t ic2 ica2 hnd hlen hcc h
    have hndr : rest.Nodup := (List.nodup_cons.mp hnd).2
    have hxr : x ∉ rest := (List.nodup_cons.mp hnd).1
    have hxlen : x < st.atoms.length := hlen x (List.mem_cons_self x rest)
    rw [List.foldlM_cons] at h
    unfold assignStep at h
    by_cases hx : (getAtom st x).name = "CX1"
    · -- carbonate atom: fresh id `ic` for it and its partners
      rw [if_pos hx] at h
      set st1 := setResidue st x "CRB" ic with hst1
      set st2 := (bondedTo st1 x).foldl (fun t b => setResidue t b "CRB" ic) st1 with hst2
      have hname2 : ∀ j, (getAtom st2 j).name = (getAtom st j).name := by
        intro j
        rw [hst2, foldResidue_name, hst1, setResidue_name]
      have hbonds2 : st2.bonds = st.bonds := by
        rw [hst2, foldResidue_bonds, hst1, setResidue_bonds]
      have hlen2 : st2.atoms.length = st.atoms.length := by
        rw [hst2, foldResidue_length, hst1, setResidue_length]
      have hpartx : bondedTo st1 x = partners st.bonds x := by
        rw [hst1, bondedTo, setResidue_bonds]
      obtain ⟨hA, hB, hC⟩ := ih st2 (ic + 1) ica t ic2 ica2 hndr
        (fun i hi => hlen2 ▸ hlen i (List.mem_cons_of_mem x hi))
        (fun i hi hni b hb => by
          rw [hname2 b]
          rw [hbonds2] at hb
          exact hcc i (List.mem_cons_of_mem x hi) (by rw [← hname2 i]; exact hni) b hb)
        h
      have hfiltC :
          rest.filter (fun i => (getAtom st2 i).name = "CX1")
            = rest.filter (fun i => (getAtom st i).name = "CX1") :=
        List.filter_congr (fun i _ => by rw [hname2 i])
      have hfiltA :
          rest.filter (fun i => (getAtom st2 i).name = "CA")
            = rest.filter (fun i => (getAtom st i).name = "CA") :=
        List.filter_congr (fun i _ => by rw [hname2 i])
      rw [hfiltC] at hA
      rw [hfiltA] at hB
      have hresx : (getAtom t x).resid = ic := by
        have hkeep : (getAtom st2 x).resid = ic := by
          rw [hst2]
          exact foldResidue_keep _ _ _ st1 x (by rw [hst1]; exact setResidue_resid_eq st x "CRB" ic hxlen)
        rw [hC x hxr (fun i hi hni hmem => by
          rw [hbonds2] at hmem
          exact (hcc i (List.mem_cons_of_mem x hi) (by rw [← hname2 i]; exact hni) x hmem).1 hx)]
        exact hkeep
      refine ⟨?_, ?_, ?_⟩
      · rw [List.filter_cons_of_pos (by rw [decide_eq_true_eq]; exact hx),
            List.map_cons, List.length_cons, hresx]
        rw [hA]
        rfl
      · rw [List.filter_cons_of_neg (by rw [decide_eq_true_eq, hx]; simp)]
        exact hB
      · intro j hj hjb
        have hjx : j ≠ x := fun hh => hj (hh ▸ List.mem_cons_self x rest)
        have hjr : j ∉ rest := fun hh => hj (List.mem_cons_of_mem x hh)
        rw [hC j hjr (fun i hi hni hmem => by
          rw [hbonds2] at hmem
          exact hjb i (List.mem_cons_of_mem x hi) (by rw [← hname2 i]; exact hni) hmem)]
        rw [hst2, foldResidue_ne _ _ _ st1 j
              (by rw [hpartx]; exact hjb x (List.mem_cons_self x rest) hx),
            hst1, setResidue_resid_ne st x "CRB" ic j (fun hh => hjx hh.symm)]
    · rw [if_neg hx] at h
      by_cases hca : (getAtom st x).name = "CA"
      · -- calcium atom: fresh id `ica`, fatal if it holds a bond
        rw [if_pos hca] at h
        by_cases h0 : bondCount st x = 0
        · rw [if_pos h0] at h
          set st2 := setResidue st x "CA" ica with hst2
          have hname2 : ∀ j, (getAtom st2 j).name = (getAtom st j).name := by
            intro j; rw [hst2, setResidue_name]
          have hbonds2 : st2.bonds = st.bonds := by rw [hst2, setResidue_bonds]
          have hlen2 : st2.atoms.length = st.atoms.length := by
            rw [hst2, setResidue_length]
          obtain ⟨hA, hB, hC⟩ := ih st2 ic (ica + 1) t ic2 ica2 hndr
            (fun i hi => hlen2 ▸ hlen i (List.mem_cons_of_mem x hi))
            (fun i hi hni b hb => by
              rw [hname2 b]
              rw [hbonds2] at hb
              exact hcc i (List.mem_cons_of_mem x hi) (by rw [← hname2 i]; exact hni) b hb)
            h
          have hfiltC :
              rest.filter (fun i => (getAtom st2 i).name = "CX1")
                = rest.filter (fun i => (getAtom st i).name = "CX1") :=
            List.filter_congr (fun i _ => by rw [hname2 i])
          have hfiltA :
              rest.filter (fun i => (getAtom st2 i).name = "CA")
                = rest.filter (fun i => (getAtom st i).name = "CA") :=
            List.filter_congr (fun i _ => by rw [hname2 i])
          rw [hfiltC] at hA
          rw [hfiltA] at hB
          have hresx : (getAtom t x).resid = ica := by
            rw [hC x hxr (fun i hi hni hmem => by
              rw [hbonds2] at hmem
              exact (hcc i (List.mem_cons_of_mem x hi)
                (by rw [← hname2 i]; exact hni) x hmem).2 hca)]
            rw [hst2]
            exact setResidue_resid_eq st x "CA" ica hxlen
          refine ⟨?_, ?_, ?_⟩
          · rw [List.filter_cons_of_neg (by rw [decide_eq_true_eq]; exact hx)]
            exact hA
          · rw [List.filter_cons_of_pos (by rw [decide_eq_true_eq]; exact hca),
                List.map_cons, List.length_cons, hresx]
            rw [hB]
            rfl
          · intro j hj hjb
            have hjx : j ≠ x := fun hh => hj (hh ▸ List.mem_cons_self x rest)
            have hjr : j ∉ rest := fun hh => hj (List.mem_cons_of_mem x hh)
            rw [hC j hjr (fun i hi hni hmem => by
              rw [hbonds2] at hmem
              exact hjb i (List.mem_cons_of_mem x hi) (by rw [← hname2 i]; exact hni) hmem)]
            rw [hst2, setResidue_resid_ne st x "CA" ica j (fun hh => hjx hh.symm)]
        · rw [if_neg h0] at h
          exact Except.noConfusion h
      · -- any other atom name: no residue action
        rw [if_neg hca] at h
        obtain ⟨hA, hB, hC⟩ := ih st ic ica t ic2 ica2 hndr
          (fun i hi => hlen i (List.mem_cons_of_mem x hi))
          (fun i hi => hcc i (List.mem_cons_of_mem x hi))
          h
        refine ⟨?_, ?_, ?_⟩
        · rw [List.filter_cons_of_neg (by rw [decide_eq_true_eq]; exact hx)]
          exact hA
        · rw [List.filter_cons_of_neg (by rw [decide_eq_true_eq]; exact hca)]
          exact hB
        · intro j hj hjb
          exact hC j (fun hh => hj (List.mem_cons_of_mem x hh))
            (fun i hi => hjb i (List.mem_cons_of_mem x hi))

/-- Partner count of an atom as a pair count over the bond table. -/
theorem partners_length_countP (bs : List (Nat × Nat)) (k : Nat) :
    (partners bs k).length = bs.countP (fun p => decide (p.1 = k ∨ p.2 = k)) := by
  induction bs with
  | nil => rfl
  | cons p t ih =>
    unfold partners at ih ⊢
    rw [List.filterMap_cons, List.countP_cons]
    by_cases h1 : p.1 = k
    · simp [h1, ih]
    · by_cases h2 : p.2 = k
      · simp [h1, h2, ih]
      · simp [h1, h2, ih]

/-- Summing the indicator of membership of either endpoint over a
duplicate-free list counts a pair with exactly one endpoint inside once. -/
theorem sum_indicator_one (a b : Nat) :
    ∀ l : List Nat, l.Nodup → a ∈ l → b ∉ l →
    (l.map (fun k => if a = k ∨ b = k then 1 else 0)).sum = 1 := by
  intro l
  induction l with
  | nil => intro _ ha _; exact absurd ha (List.not_mem_nil a)
  | cons x xs ih =>
    intro hnd ha hb
    rw [List.map_cons, List.sum_cons]
    by_cases hax : a = x
    · subst hax
      rw [if_pos (Or.inl rfl)]
      have hnotin : a ∉ xs := (List.nodup_cons.mp hnd).1
      have hzero : (xs.map (fun k => if a = k ∨ b = k then 1 else 0)).sum = 0 := by
        apply List.sum_eq_zero
        intro y hy
        rw [List.mem_map] at hy
        obtain ⟨k, hk, rfl⟩ := hy
        rw [if_neg]
        rintro (rfl | rfl)
        · exact hnotin hk
        · exact hb (List.mem_cons_of_mem _ hk)
      rw [hzero]
    · have hbx : ¬(b = x) := fun hh => hb (hh ▸ List.mem_cons_self x xs)
      have hcond : ¬(a = x ∨ b = x) := by
        rintro (rfl | rfl)
        · exact hax rfl
        · exact hbx rfl
      have hmem : a ∈ xs := (List.mem_cons.mp ha).resolve_left hax
      rw [if_neg hcond,
          ih (List.nodup_cons.mp hnd).2 hmem (fun hh => hb (List.mem_cons_of_mem x hh))]

/-- Summing partner counts over a duplicate-free atom list equals the bond
count when every pair has exactly one endpoint in the list. -/
theorem sum_partner_counts (l : List Nat) (hnd : l.Nodup) :
    ∀ bs : List (Nat × Nat),
    (∀ p ∈ bs, (p.1 ∈ l ∧ p.2 ∉ l) ∨ (p.2 ∈ l ∧ p.1 ∉ l)) →
    (l.map (fun k => (partners bs k).length)).sum = bs.length := by
  intro bs
  induction bs with
  | nil =>
    intro _
    apply List.sum_eq_zero
    intro y hy
    rw [List.mem_map] at hy
    obtain ⟨k, _, rfl⟩ := hy
    rfl
  | cons p t ih =>
    intro htyped
    have ht := ih (fun q hq => htyped q (List.mem_cons_of_mem p hq))
    have hstep : ∀ k, (partners (p :: t) k).length
        = (partners t k).length + (if p.1 = k ∨ p.2 = k then 1 else 0) := by
      intro k
      rw [partners_length_countP, partners_length_countP, List.countP_cons]
      by_cases hk : p.1 = k ∨ p.2 = k
      · rw [if_pos hk, if_pos (by rw [decide_eq_true_eq]; exact hk)]
      · rw [if_neg hk, if_neg (by rw [decide_eq_true_eq]; exact hk)]
    have hmap : l.map (fun k => (partners (p :: t) k).length)
        = l.map (fun k => (partners t k).length + (if p.1 = k ∨ p.2 = k then 1 else 0)) :=
      List.map_congr_left (fun k _ => hstep k)
    rw [hmap, List.sum_map_add, ht, List.length_cons]
    rcases htyped p (List.mem_cons_self p t) with ⟨h1, h2⟩ | ⟨h1, h2⟩
    · rw [sum_indicator_one p.1 p.2 l hnd h1 h2]
    · have hcomm : l.map (fun k => if p.1 = k ∨ p.2 = k then 1 else 0)
          = l.map (fun k => if p.2 = k ∨ p.1 = k then 1 else 0) :=
        List.map_congr_left (fun k _ => by
          by_cases hk : p.1 = k ∨ p.2 = k
          · rw [if_pos hk, if_pos hk.symm]
          · rw [if_neg hk, if_neg (fun hh => hk hh.symm)])
      rw [hcomm, sum_indicator_one p.2 p.1 l hnd h1 h2]

/-- Mapping values at most one bounds the sum by the length. -/
theorem sum_le_length (t : List Nat) (f : Nat → Nat) :
    (∀ x ∈ t, f x ≤ 1) → (t.map f).sum ≤ t.length := by
  induction t with
  | nil => intro _; simp
  | cons b u ihu =>
    intro h
    rw [List.map_cons, List.sum_cons, List.length_cons]
    have h1 := h b (List.mem_cons_self b u)
    have h2 := ihu (fun y hy => h y (List.mem_cons_of_mem b hy))
    omega

/-- A list of naturals each at most one summing to the list length is all
ones. -/
theorem all_one_of_sum (l : List Nat) (f : Nat → Nat) :
    (∀ x ∈ l, f x ≤ 1) → (l.map f).sum = l.length → ∀ x ∈ l, f x = 1 := by
  induction l with
  | nil => intro _ _ x hx; exact absurd hx (List.not_mem_nil x)
  | cons a t ih =>
    intro hle hsum x hx
    rw [List.map_cons, List.sum_cons, List.length_cons] at hsum
    have htle : (t.map f).sum ≤ t.length :=
      sum_le_length t f (fun y hy => hle y (List.mem_cons_of_mem a hy))
    have hfa : f a = 1 := by
      have := hle a (List.mem_cons_self a t)
      omega
    rcases List.mem_cons.mp hx with rfl | hxt
    · exact hfa
    · exact ih (fun y hy => hle y (List.mem_cons_of_mem a hy))
        (by omega) x hxt

/-- Inversion of a successful bind in the `Except` monad. -/
theorem except_bind_inv {α β : Type} (x : Except (SimState × String) α)
    (f : α → Except (SimState × String) β) (b : β)
    (h : (x >>= f) = .ok b) : ∃ a, x = .ok a ∧ f a = .ok b := by
  cases x with
  | error e => exact Except.noConfusion h
  | ok a => exact ⟨a, rfl, h⟩

/-- Inversion of a successful duplicate-coordinate check. -/
theorem dupCheck_ok (s t : SimState) (h : dupCheck s = .ok t) : t = s := by
  unfold dupCheck at h
  by_cases hd : List.Pairwise (fun a b : Atom => a.pos ≠ b.pos) s.atoms
  · rw [if_pos hd] at h
    exact (Except.ok.inj h).symm
  · rw [if_neg hd] at h
    exact Except.noConfusion h

/-- Inversion of the reference-plane stage. -/
theorem surfNormE_ok (cars : List Nat) (s : SimState) (n : Vec3)
    (h : surfNormE cars s = .ok n) : findSurfNorm cars s = some n := by
  unfold surfNormE at h
  cases hn : findSurfNorm cars s with
  | none => rw [hn] at h; exact Except.noConfusion h
  | some m =>
    rw [hn] at h
    rw [Except.ok.inj h]

/-- A successful run of the protected pipeline body decomposes into its
successful stages. -/
theorem tryBody_parts (s t : SimState) (h : tryBody s = .ok t) :
    ∃ n s2 s3 s4,
      findSurfNorm (carbons s) (detectBonds (carbons s) (oxygens s) s) = some n ∧
      completionPass n (carbons s) (oxygens s)
          (detectBonds (carbons s) (oxygens s) s) = .ok s2 ∧
      checkCarbons (carbons s) s2 = .ok s3 ∧
      assignResidues s3 = .ok s4 ∧
      t = s4 := by
  unfold tryBody at h
  obtain ⟨n, hn, h⟩ := except_bind_inv _ _ _ h
  obtain ⟨s2, hp, h⟩ := except_bind_inv _ _ _ h
  obtain ⟨s3, hc, h⟩ := except_bind_inv _ _ _ h
  obtain ⟨s4, ha, h⟩ := except_bind_inv _ _ _ h
  exact ⟨n, s2, s3, s4, surfNormE_ok _ _ _ hn, hp, hc, ha, dupCheck_ok s4 t h⟩

/-- Inversion of a successful residue assignment into the raw fold. -/
theorem assignResidues_inv (s t : SimState) (h : assignResidues s = .ok t) :
    ∃ ic2 ica2,
      (atomIdx s).foldlM assignStep (s, 1, resCountCA s + 1) = .ok (t, ic2, ica2) := by
  unfold assignResidues at h
  cases hr : (atomIdx s).foldlM assignStep (s, 1, resCountCA s + 1) with
  | error e => rw [hr] at h; exact Except.noConfusion h
  | ok v =>
    obtain ⟨t1, ic2, ica2⟩ := v
    rw [hr] at h
    have ht : t1 = t := Except.ok.inj h
    subst ht
    exact ⟨ic2, ica2, rfl⟩


/-- A successful residue assignment keeps bonds, atom count, names and
positions. -/
theorem assignResidues_preserve (s t : SimState) (h : assignResidues s = .ok t) :
    t.bonds = s.bonds ∧ t.atoms.length = s.atoms.length ∧
    (∀ j, (getAtom t j).name = (getAtom s j).name) ∧
    (∀ j, (getAtom t j).pos = (getAtom s j).pos) := by
  obtain ⟨ic2, ica2, hr⟩ := assignResidues_inv s t h
  exact assignFold_preserve (atomIdx s) s 1 (resCountCA s + 1) t ic2 ica2 hr

/-- The carbon group lists each index once. -/
theorem carbons_nodup (s : SimState) : (carbons s).Nodup :=
  List.Nodup.filter _ (List.nodup_range _)

/-- No index is both in the carbon group and in the oxygen group. -/
theorem carbons_disjoint (s : SimState) : ∀ x ∈ carbons s, x ∉ oxygens s :=
  fun x hx hox => oxygens_disjoint s x hox hx

/-- Membership in the bond table after an insertion. -/
theorem mem_addBond (bs : List (Nat × Nat)) (i j : Nat) (p : Nat × Nat)
    (h : p ∈ addBond bs i j) : p = (i, j) ∨ p ∈ bs := by
  unfold addBond at h
  by_cases hm : bondMem bs i j
  · rw [if_pos hm] at h
    exact Or.inr h
  · rw [if_neg hm] at h
    exact List.mem_cons.mp h

/-- Detection only inserts pairs joining an oxygen of its list to a carbon
of its list. -/
theorem detectBonds_typed (cars : List Nat) (oxs : List Nat) :
    ∀ (s : SimState),
    ∀ p ∈ (detectBonds cars oxs s).bonds,
      p ∈ s.bonds ∨ (p.1 ∈ oxs ∧ p.2 ∈ cars) := by
  induction oxs with
  | nil => intro s p hp; exact Or.inl hp
  | cons x rest ih =>
    intro s p hp
    unfold detectBonds at hp
    rw [List.foldl_cons] at hp
    rcases ih (detectStep cars s x) p hp with hmem | ⟨h1, h2⟩
    · unfold detectStep at hmem
      rcases hc : candidates s cars x with _ | ⟨c, _ | ⟨d, tl⟩⟩ <;> rw [hc] at hmem
      · exact Or.inl hmem
      · rcases mem_addBond s.bonds x c p hmem with rfl | hmem2
        · exact Or.inr ⟨List.mem_cons_self x rest,
            candidates_subset s cars x c (by rw [hc]; exact List.mem_singleton.mpr rfl)⟩
        · exact Or.inl hmem2
      · exact Or.inl hmem
    · exact Or.inr ⟨List.mem_cons_of_mem x h1, h2⟩

/-- A successful inner completion scan only inserts a pair joining its
oxygen to a carbon of its list. -/
theorem completionInner_typed (n : Vec3) (o : Nat) (cars : List Nat) (s t : SimState)
    (h : completionInner n o cars s = .ok t) :
    ∀ p ∈ t.bonds, p ∈ s.bonds ∨ (p.1 = o ∧ p.2 ∈ cars) := by
  intro p hp
  rcases completionInner_bonds n o cars s t h with hb | ⟨c, hc, hb⟩
  · rw [hb] at hp
    exact Or.inl hp
  · rw [hb] at hp
    rcases mem_addBond s.bonds o c p hp with rfl | hmem
    · exact Or.inr ⟨rfl, hc⟩
    · exact Or.inl hmem

/-- A successful completion pass only inserts pairs joining an oxygen of its
list to a carbon of its list. -/
theorem completionPass_typed (n : Vec3) (cars oxs : List Nat) :
    ∀ (s t : SimState), completionPass n cars oxs s = .ok t →
    ∀ p ∈ t.bonds, p ∈ s.bonds ∨ (p.1 ∈ oxs ∧ p.2 ∈ cars) := by
  induction oxs with
  | nil =>
    intro s t h p hp
    unfold completionPass at h
    rw [List.foldlM_nil] at h
    rw [← Except.ok.inj h] at hp
    exact Or.inl hp
  | cons x rest ih =>
    intro s t h p hp
    unfold completionPass at h
    rw [List.foldlM_cons] at h
    cases hstep : completionStep n cars s x with
    | error e =>
      rw [hstep] at h
      exact Except.noConfusion h
    | ok t1 =>
      rw [hstep] at h
      rcases ih t1 t h p hp with hmem | ⟨h1, h2⟩
      · unfold completionStep at hstep
        by_cases hx : bondCount s x = 0
        · rw [if_pos hx] at hstep
          rcases completionInner_typed n x cars s t1 hstep p hmem with hmem2 | ⟨h1, h2⟩
          · exact Or.inl hmem2
          · exact Or.inr ⟨h1 ▸ List.mem_cons_self x rest, h2⟩
        · rw [if_neg hx] at hstep
          rw [← Except.ok.inj hstep] at hmem
          exact Or.inl hmem
      · exact Or.inr ⟨List.mem_cons_of_mem x h1, h2⟩

/-- Listwise-constant partner counts sum to a multiple of the length. -/
theorem sum_const_three (l : List Nat) (f : Nat → Nat) (h : ∀ x ∈ l, f x = 3) :
    (l.map f).sum = 3 * l.length := by
  induction l with
  | nil => rfl
  | cons a t ih =>
    rw [List.map_cons, List.sum_cons, List.length_cons,
        h a (List.mem_cons_self a t),
        ih (fun y hy => h y (List.mem_cons_of_mem a hy))]
    ring

/-- Starting from an empty bond table, detection leaves every oxygen of the
group with at most one bond. -/
theorem detect_count_le (s : SimState) (h0 : s.bonds = []) (o : Nat) (ho : o ∈ oxygens s) :
    bondCount (detectBonds (carbons s) (oxygens s) s) o ≤ 1 := by
  unfold bondCount bondedTo
  by_cases hc : ∃ c, candidates s (carbons s) o = [c]
  · obtain ⟨c, hc⟩ := hc
    rw [detect_partners_one (carbons s) (oxygens s) s o c (oxygens_nodup s)
          (oxygens_disjoint s) ho hc, h0]
    by_cases hm : bondMem [] o c
    · exact absurd hm (by simp [bondMem])
    · rw [if_neg hm]
      simp [partners]
  · push_neg at hc
    rw [detect_partners_other (carbons s) (oxygens s) s o (oxygens_nodup s)
          (oxygens_disjoint s) ho hc, h0]
    simp [partners]

/-- After a successful detection-plus-completion on an initially bond-free
structure in which every carbon ends with 3 bonds and the oxygen count is
three times the carbon count, every oxygen holds exactly one bond. -/
theorem stage_oxygen_counts (s : SimState) (h0 : s.bonds = []) (n : Vec3) (s2 : SimState)
    (hpass : completionPass n (carbons s) (oxygens s)
        (detectBonds (carbons s) (oxygens s) s) = .ok s2)
    (hall3 : ∀ c ∈ carbons s, bondCount s2 c = 3)
    (hcnt : (oxygens s).length = 3 * (carbons s).length) :
    ∀ o ∈ oxygens s, bondCount s2 o = 1 := by
  have htyped : ∀ p ∈ s2.bonds, p.1 ∈ oxygens s ∧ p.2 ∈ carbons s := by
    intro p hp
    rcases completionPass_typed n (carbons s) (oxygens s) _ s2 hpass p hp with hmem | hok
    · rcases detectBonds_typed (carbons s) (oxygens s) s p hmem with hmem2 | hok
      · rw [h0] at hmem2
        exact absurd hmem2 (List.not_mem_nil p)
      · exact hok
    · exact hok
  have hle : ∀ o ∈ oxygens s, bondCount s2 o ≤ 1 := by
    intro o ho
    have hd := detect_count_le s h0 o ho
    have hno : o ∉ carbons s := oxygens_disjoint s o ho
    exact (completionPass_count_le n (carbons s) (oxygens s) o hno _ hd).1 s2 hpass
  have hsum_ox : ((oxygens s).map (fun k => (partners s2.bonds k).length)).sum
      = s2.bonds.length :=
    sum_partner_counts (oxygens s) (oxygens_nodup s) s2.bonds (fun p hp =>
      Or.inl ⟨(htyped p hp).1, fun hin => carbons_disjoint s p.2 (htyped p hp).2 hin⟩)
  have hsum_car : ((carbons s).map (fun k => (partners s2.bonds k).length)).sum
      = s2.bonds.length :=
    sum_partner_counts (carbons s) (carbons_nodup s) s2.bonds (fun p hp =>
      Or.inr ⟨(htyped p hp).2, fun hin => oxygens_disjoint s p.1 (htyped p hp).1 hin⟩)
  have hcar3 : ((carbons s).map (fun k => (partners s2.bonds k).length)).sum
      = 3 * (carbons s).length :=
    sum_const_three _ _ (fun c hc => hall3 c hc)
  have heq : ((oxygens s).map (fun k => (partners s2.bonds k).length)).sum
      = (oxygens s).length := by omega
  exact all_one_of_sum (oxygens s) (fun k => (partners s2.bonds k).length) hle heq

/-- The renaming step fails only with the unknown-atom-name message. -/
theorem renameStep_err (st : SimState) (i : Nat) (m : String)
    (h : renameStep st i = .error m) :
    m = "Unknown atom name " ++ (getAtom st i).name := by
  unfold renameStep at h
  by_cases h1 : (getAtom st i).name = "C"
  · rw [if_pos h1] at h
    exact Except.noConfusion h
  · rw [if_neg h1] at h
    by_cases h2 : (getAtom st i).name = "O"
    · rw [if_pos h2] at h
      exact Except.noConfusion h
    · rw [if_neg h2] at h
      by_cases h3 : (getAtom st i).name = "CA"
      · rw [if_pos h3] at h
        exact Except.noConfusion h
      · rw [if_neg h3] at h
        exact (Except.error.inj h).symm

/-- The renaming loop fails only with an unknown-atom-name message. -/
theorem renameAtoms_go_err (idxs : List Nat) :
    ∀ (st : SimState) (m : String), idxs.foldlM renameStep st = .error m →
    ∃ nm, m = "Unknown atom name " ++ nm := by
  induction idxs with
  | nil =>
    intro st m h
    rw [List.foldlM_nil] at h
    exact Except.noConfusion h
  | cons x rest ih =>
    intro st m h
    rw [List.foldlM_cons] at h
    cases hstep : renameStep st x with
    | error e =>
      rw [hstep] at h
      have hm : e = m := Except.error.inj h
      exact ⟨(getAtom st x).name, hm ▸ renameStep_err st x e hstep⟩
    | ok t =>
      rw [hstep] at h
      exact ih t m h

/-- An uncaught exception of `pdb_clean` can only be the unknown-atom-name
error of the renaming loop, which runs outside the `try` block. -/
theorem pdb_clean_uncaught (s : SimState) (m : String)
    (h : pdb_clean s = .uncaught m) : ∃ nm, m = "Unknown atom name " ++ nm := by
  unfold pdb_clean at h
  cases hr : renameAtoms (zAdjust s) with
  | error m2 =>
    rw [hr] at h
    have hm := CleanResult.uncaught.inj h
    rw [← hm]
    exact renameAtoms_go_err (atomIdx (zAdjust s)) (zAdjust s) m2 hr
  | ok s1 =>
    rw [hr] at h
    have h2 : (match tryBody s1 with
        | Except.error e => CleanResult.caught e.1 e.2
        | Except.ok s2 => CleanResult.ok s2) = CleanResult.uncaught m := h
    cases ht : tryBody s1 with
    | error e =>
      rw [ht] at h2
      exact CleanResult.noConfusion h2
    | ok s2 =>
      rw [ht] at h2
      exact CleanResult.noConfusion h2

/-- A caught per-structure failure lets the batch continue with the
remaining structures. -/
theorem processBatch_caught (s : SimState) (rest : List SimState) (t : SimState)
    (m : String) (h : pdb_clean s = .caught t m) :
    processBatch (s :: rest)
      = ((CleanResult.caught t m) :: (processBatch rest).1, (processBatch rest).2) := by
  simp only [processBatch]
  rw [h]

/-- A successful structure lets the batch continue with the remaining
structures. -/
theorem processBatch_ok (s : SimState) (rest : List SimState) (t : SimState)
    (h : pdb_clean s = .ok t) :
    processBatch (s :: rest)
      = ((CleanResult.ok t) :: (processBatch rest).1, (processBatch rest).2) := by
  simp only [processBatch]
  rw [h]

/-- Detection is the identity when every oxygen of the group whose candidate
list is a singleton already holds that bond. -/
theorem detectBonds_noop (cars oxs : List Nat) (s : SimState)
    (h : ∀ o ∈ oxs, ∀ c, candidates s cars o = [c] → bondMem s.bonds o c = true) :
    detectBonds cars oxs s = s := by
  induction oxs with
  | nil => rfl
  | cons x rest ih =>
    unfold detectBonds at ih ⊢
    rw [List.foldl_cons]
    have hstep : detectStep cars s x = s := by
      unfold detectStep
      rcases hc : candidates s cars x with _ | ⟨c, _ | ⟨d, tl⟩⟩
      · rfl
      · have hm := h x (List.mem_cons_self x rest) c hc
        show { s with bonds := addBond s.bonds x c } = s
        unfold addBond
        rw [if_pos hm]
      · rfl
    rw [hstep]
    exact ih (fun o ho => h o (List.mem_cons_of_mem x ho))

/-- Overwriting a position in range reads back as written. -/
theorem setPos_pos_eq (s : SimState) (i : Nat) (p : Vec3) (h : i < s.atoms.length) :
    (getAtom (setPos s i p) i).pos = p := by
  unfold getAtom setPos
  rw [modifyIdx_getD_eq s.atoms i _ dfltAtom h]

/-- Two members of a list of length at most one coincide. -/
theorem mem_len_le_one (l : List Nat) (h : l.length ≤ 1) (a b : Nat)
    (ha : a ∈ l) (hb : b ∈ l) : a = b := by
  cases l with
  | nil => exact absurd ha (List.not_mem_nil a)
  | cons x t =>
    cases t with
    | nil =>
      rw [List.mem_singleton.mp ha, List.mem_singleton.mp hb]
    | cons y u =>
      rw [List.length_cons, List.length_cons] at h
      omega

/-- Negating after a subtraction agrees with negating the sum. -/
theorem vsub_vneg_eq (w1 w2 : Vec3) : vsub (vneg w1) w2 = vneg (vadd w1 w2) := by
  unfold vsub vneg vadd
  ext <;> dsimp <;> ring

/-- Stepping a successful bind. -/
theorem bind_ok_step {α β : Type} (x : Except (SimState × String) α) (a : α)
    (f : α → Except (SimState × String) β) (hx : x = .ok a) : (x >>= f) = f a := by
  rw [hx]
  rfl

/-- Stepping a monadic fold whose first action succeeds. -/
theorem foldlM_cons_ok {ε α : Type} (f : α → Nat → Except ε α)
    (a : α) (x : Nat) (l : List Nat) (b : α) (h : f a x = .ok b) :
    List.foldlM f a (x :: l) = List.foldlM f b l := by
  rw [List.foldlM_cons, h]
  rfl

/-- Assembling a successful run of the protected pipeline body from its
stages. -/
theorem tryBody_eq (s : SimState) (n : Vec3) (s2 s3 s4 r : SimState)
    (hn : surfNormE (carbons s) (detectBonds (carbons s) (oxygens s) s) = .ok n)
    (hp : completionPass n (carbons s) (oxygens s)
        (detectBonds (carbons s) (oxygens s) s) = .ok s2)
    (hc : checkCarbons (carbons s) s2 = .ok s3)
    (ha : assignResidues s3 = .ok s4)
    (hd : dupCheck s4 = .ok r) :
    tryBody s = .ok r := by
  unfold tryBody
  exact (bind_ok_step _ n _ hn).trans
    ((bind_ok_step _ s2 _ hp).trans
      ((bind_ok_step _ s3 _ hc).trans
        ((bind_ok_step _ s4 _ ha).trans hd)))

/-- Stepping a failing bind. -/
theorem bind_err_step {α β : Type} (x : Except (SimState × String) α)
    (e : SimState × String) (f : α → Except (SimState × String) β)
    (hx : x = .error e) : (x >>= f) = .error e := by
  rw [hx]
  rfl

/-- Assembling a failing run of the protected pipeline body that dies in the
reference-plane stage. -/
theorem tryBody_eq_err_surf (s : SimState) (e : SimState × String)
    (hn : surfNormE (carbons s) (detectBonds (carbons s) (oxygens s) s) = .error e) :
    tryBody s = .error e := by
  unfold tryBody
  exact bind_err_step _ _ _ hn

/-- A successful wrapper run decomposes through rename and the protected
body. -/
theorem pdb_clean_eq_ok (s s1 r : SimState)
    (hr : renameAtoms (zAdjust s) = .ok s1) (ht : tryBody s1 = .ok r) :
    pdb_clean s = .ok r := by
  unfold pdb_clean
  rw [hr]
  show (match tryBody s1 with
    | Except.error e => CleanResult.caught e.1 e.2
    | Except.ok s2 => CleanResult.ok s2) = CleanResult.ok r
  rw [ht]

/-- A failing protected body surfaces as a caught, structure-local failure. -/
theorem pdb_clean_eq_caught (s s1 t : SimState) (m : String)
    (hr : renameAtoms (zAdjust s) = .ok s1) (ht : tryBody s1 = .error (t, m)) :
    pdb_clean s = .caught t m := by
  unfold pdb_clean
  rw [hr]
  show (match tryBody s1 with
    | Except.error e => CleanResult.caught e.1 e.2
    | Except.ok s2 => CleanResult.ok s2) = CleanResult.caught t m
  rw [ht]

/-- A failing rename surfaces as an uncaught exception. -/
theorem pdb_clean_eq_uncaught (s : SimState) (m : String)
    (hr : renameAtoms (zAdjust s) = .error m) :
    pdb_clean s = .uncaught m := by
  unfold pdb_clean
  rw [hr]

/-! Evaluations of the embedded stages on the concrete structures. -/

/-- Both carbons of `ambigState` are candidates of its oxygen. -/
theorem ambig_cands : candidates ambigState [1, 2] 0 = [1, 2] := by
  have hd1 : miDist2 (getAtom ambigState 0).pos (getAtom ambigState 1).pos ambigState.box
      = 1 := by
    show miDist2 ⟨0, 0, 0⟩ ⟨1, 0, 0⟩ ⟨100, 100, 100⟩ = 1
    rw [miDist2_eq _ _ _ (by apply abs_bound_of <;> norm_num)
        (by apply abs_bound_of <;> norm_num) (by apply abs_bound_of <;> norm_num)]
    norm_num
  have hd2 : miDist2 (getAtom ambigState 0).pos (getAtom ambigState 2).pos ambigState.box
      = 1 := by
    show miDist2 ⟨0, 0, 0⟩ ⟨0, 1, 0⟩ ⟨100, 100, 100⟩ = 1
    rw [miDist2_eq _ _ _ (by apply abs_bound_of <;> norm_num)
        (by apply abs_bound_of <;> norm_num) (by apply abs_bound_of <;> norm_num)]
    norm_num
  unfold candidates
  rw [List.filter_cons, List.filter_cons, List.filter_nil,
      if_pos (by rw [decide_eq_true_eq, hd1, cutoff]; norm_num),
      if_pos (by rw [decide_eq_true_eq, hd2, cutoff]; norm_num)]

/-- The candidates of the oxygen of `ambigState` over its carbon group. -/
theorem ambig_cands_full : candidates ambigState (carbons ambigState) 0 = [1, 2] := by
  rw [show carbons ambigState = [1, 2] from by decide]
  exact ambig_cands

/-- Detection on `driftState` adds a fourth bond to carbon 4. -/
theorem drift_detect :
    detectBonds (carbons driftState) (oxygens driftState) driftState = driftDetected := by
  rw [show carbons driftState = [0, 4] from by decide,
      show oxygens driftState = [1] from by decide]
  have hd0 : miDist2 (getAtom driftState 1).pos (getAtom driftState 0).pos driftState.box
      = 25 := by
    show miDist2 ⟨5, 0, 0⟩ ⟨0, 0, 0⟩ ⟨1000, 1000, 1000⟩ = 25
    rw [miDist2_eq _ _ _ (by apply abs_bound_of <;> norm_num)
        (by apply abs_bound_of <;> norm_num) (by apply abs_bound_of <;> norm_num)]
    norm_num
  have hd4 : miDist2 (getAtom driftState 1).pos (getAtom driftState 4).pos driftState.box
      = 1 := by
    show miDist2 ⟨5, 0, 0⟩ ⟨5, 1, 0⟩ ⟨1000, 1000, 1000⟩ = 1
    rw [miDist2_eq _ _ _ (by apply abs_bound_of <;> norm_num)
        (by apply abs_bound_of <;> norm_num) (by apply abs_bound_of <;> norm_num)]
    norm_num
  have hc : candidates driftState [0, 4] 1 = [4] := by
    unfold candidates
    rw [List.filter_cons, List.filter_cons, List.filter_nil,
        if_neg (by rw [decide_eq_true_eq, hd0, cutoff]; norm_num),
        if_pos (by rw [decide_eq_true_eq, hd4, cutoff]; norm_num)]
  unfold detectBonds
  rw [List.foldl_cons, List.foldl_nil]
  unfold detectStep
  rw [hc]
  rfl

/-- Detection on `extraOxState` bonds the three near oxygens and leaves the
distant one free. -/
theorem extraOx_detect :
    detectBonds (carbons extraOxState) (oxygens extraOxState) extraOxState
      = extraOxDetected := by
  rw [show carbons extraOxState = [0] from by decide,
      show oxygens extraOxState = [1, 2, 3, 4] from by decide]
  have hca : ∀ (bs : List (Nat × Nat)) (o : Nat),
      candidates { extraOxState with bonds := bs } [0] o = candidates extraOxState [0] o :=
    fun bs o => candidates_congr extraOxState { extraOxState with bonds := bs } [0] o rfl rfl
  have hc1 : candidates extraOxState [0] 1 = [0] := by
    have hd : miDist2 (getAtom extraOxState 1).pos (getAtom extraOxState 0).pos
        extraOxState.box = 1.285 ^ 2 := by
      show miDist2 ⟨1.285, 0, 0⟩ ⟨0, 0, 0⟩ ⟨200, 200, 200⟩ = 1.285 ^ 2
      rw [miDist2_eq _ _ _ (by apply abs_bound_of <;> norm_num)
          (by apply abs_bound_of <;> norm_num) (by apply abs_bound_of <;> norm_num)]
      norm_num
    unfold candidates
    rw [List.filter_cons, List.filter_nil,
        if_pos (by rw [decide_eq_true_eq, hd, cutoff]; norm_num)]
  have hc2 : candidates extraOxState [0] 2 = [0] := by
    have hd : miDist2 (getAtom extraOxState 2).pos (getAtom extraOxState 0).pos
        extraOxState.box = 1.285 ^ 2 := by
      show miDist2 ⟨0, 1.285, 0⟩ ⟨0, 0, 0⟩ ⟨200, 200, 200⟩ = 1.285 ^ 2
      rw [miDist2_eq _ _ _ (by apply abs_bound_of <;> norm_num)
          (by apply abs_bound_of <;> norm_num) (by apply abs_bound_of <;> norm_num)]
      norm_num
    unfold candidates
    rw [List.filter_cons, List.filter_nil,
        if_pos (by rw [decide_eq_true_eq, hd, cutoff]; norm_num)]
  have hc3 : candidates extraOxState [0] 3 = [0] := by
    have hd : miDist2 (getAtom extraOxState 3).pos (getAtom extraOxState 0).pos
        extraOxState.box = 1.285 ^ 2 := by
      show miDist2 ⟨0, 0, 1.285⟩ ⟨0, 0, 0⟩ ⟨200, 200, 200⟩ = 1.285 ^ 2
      rw [miDist2_eq _ _ _ (by apply abs_bound_of <;> norm_num)
          (by apply abs_bound_of <;> norm_num) (by apply abs_bound_of <;> norm_num)]
      norm_num
    unfold candidates
    rw [List.filter_cons, List.filter_nil,
        if_pos (by rw [decide_eq_true_eq, hd, cutoff]; norm_num)]
  have hc4 : candidates extraOxState [0] 4 = [] := by
    have hd : miDist2 (getAtom extraOxState 4).pos (getAtom extraOxState 0).pos
        extraOxState.box = 7500 := by
      show miDist2 ⟨50, 50, 50⟩ ⟨0, 0, 0⟩ ⟨200, 200, 200⟩ = 7500
      rw [miDist2_eq _ _ _ (by apply abs_bound_of <;> norm_num)
          (by apply abs_bound_of <;> norm_num) (by apply abs_bound_of <;> norm_num)]
      norm_num
    unfold candidates
    rw [List.filter_cons, List.filter_nil,
        if_neg (by rw [decide_eq_true_eq, hd, cutoff]; norm_num)]
  have d1 : detectStep [0] extraOxState 1 = { extraOxState with bonds := [(1, 0)] } := by
    unfold detectStep
    rw [hc1]
    rfl
  have d2 : detectStep [0] { extraOxState with bonds := [(1, 0)] } 2
      = { extraOxState with bonds := [(2, 0), (1, 0)] } := by
    unfold detectStep
    rw [hca [(1, 0)] 2, hc2]
    rfl
  have d3 : detectStep [0] { extraOxState with bonds := [(2, 0), (1, 0)] } 3
      = { extraOxState with bonds := [(3, 0), (2, 0), (1, 0)] } := by
    unfold detectStep
    rw [hca [(2, 0), (1, 0)] 3, hc3]
    rfl
  have d4 : detectStep [0] { extraOxState with bonds := [(3, 0), (2, 0), (1, 0)] } 4
      = { extraOxState with bonds := [(3, 0), (2, 0), (1, 0)] } := by
    unfold detectStep
    rw [hca [(3, 0), (2, 0), (1, 0)] 4, hc4]
  unfold detectBonds
  rw [List.foldl_cons, d1, List.foldl_cons, d2, List.foldl_cons, d3,
      List.foldl_cons, d4, List.foldl_nil]
  rfl

/-- The duplicate-coordinate check passes on the reconstructed
`extraOxState`. -/
theorem extraOx_dup : dupCheck extraOxChecked = .ok extraOxChecked := by
  unfold dupCheck
  rw [if_pos]
  show List.Pairwise _ extraOxChecked.atoms
  simp only [extraOxChecked, List.pairwise_cons, List.mem_cons, List.mem_singleton]
  norm_num [Vec3.mk.injEq, Atom.mk.injEq]

/-- The protected body succeeds on `extraOxState` although atom 4 never
receives a bond. -/
theorem extraOx_run : tryBody extraOxState = .ok extraOxChecked := by
  refine tryBody_eq extraOxState extraOxNorm extraOxDetected extraOxChecked
    extraOxChecked extraOxChecked ?_ ?_ ?_ ?_ extraOx_dup
  · rw [extraOx_detect]
    rfl
  · rw [extraOx_detect]
    rfl
  · rfl
  · rfl

/-- An unrecognized atom name escapes `pdb_clean` uncaught. -/
theorem badName_uncaught : pdb_clean badNameState = .uncaught "Unknown atom name N" :=
  pdb_clean_eq_uncaught badNameState "Unknown atom name N" rfl

/-- A missing reference plane is caught and turned into a diagnostic
artifact. -/
theorem caOnly_caught :
    pdb_clean caOnlyState
      = .caught caOnlyArtifact "Could not find a fully connected carbonate group" :=
  pdb_clean_eq_caught caOnlyState caOnlyArtifact caOnlyArtifact
    "Could not find a fully connected carbonate group" rfl
    (tryBody_eq_err_surf caOnlyArtifact
      (caOnlyArtifact, "Could not find a fully connected carbonate group") rfl)

/-! Claim theorems. -/

/-- Claim C1 (amended): fatal conditions raised inside the protected block
are structure-local — the wrapper catches them, writes the diagnostic
artifact carrying the failure-time state, and the batch continues with the
next structure — but the unknown-atom-name error of the renaming loop is
raised before the `try` block, is never caught, and is the only condition
that escapes `pdb_clean`, aborting the batch. -/
theorem C1_amended :
    (∀ (s : SimState) (m : String), pdb_clean s = .uncaught m →
       ∃ nm, m = "Unknown atom name " ++ nm) ∧
    (∀ (s : SimState) (rest : List SimState) (t : SimState) (m : String),
       pdb_clean s = .caught t m →
       processBatch (s :: rest)
         = ((CleanResult.caught t m) :: (processBatch rest).1, (processBatch rest).2)) ∧
    (∀ (s : SimState) (rest : List SimState) (t : SimState),
       pdb_clean s = .ok t →
       processBatch (s :: rest)
         = ((CleanResult.ok t) :: (processBatch rest).1, (processBatch rest).2)) :=
  ⟨pdb_clean_uncaught, processBatch_caught, processBatch_ok⟩

/-- Claim C1, witness: the reference-plane failure on a calcium-only
structure is caught, its artifact carries the renamed state, and a
single-structure batch completes without aborting. -/
theorem C1_amended_witness :
    pdb_clean caOnlyState
      = .caught caOnlyArtifact "Could not find a fully connected carbonate group" ∧
    processBatch [caOnlyState]
      = ((CleanResult.caught caOnlyArtifact
            "Could not find a fully connected carbonate group")
          :: (processBatch []).1, (processBatch []).2) :=
  ⟨caOnly_caught, C1_amended.2.1 caOnlyState [] caOnlyArtifact
      "Could not find a fully connected carbonate group" caOnly_caught⟩

/-- Claim C1, counterexample: the unknown-atom-name condition raised during
renaming is not caught; it aborts the batch and the pending structure is
never processed, contradicting the claim that every fatal error kind,
including UnknownAtomName, is structure-local. -/
theorem C1_counterexample :
    pdb_clean badNameState = .uncaught "Unknown atom name N" ∧
    processBatch [badNameState, caOnlyState]
      = ([CleanResult.uncaught "Unknown atom name N"], some "Unknown atom name N") := by
  refine ⟨badName_uncaught, ?_⟩
  simp only [processBatch]
  rw [badName_uncaught]

/-- Claim C2 (amended): in the detection step, an oxygen with exactly one
candidate carbon within the cutoff receives that bond (unless already
present); an oxygen with zero or with several candidates is left untouched —
ambiguity is not a failure, the atom simply stays free. -/
theorem C2_amended (s : SimState) (o : Nat) (ho : o ∈ oxygens s) :
    (∀ c, candidates s (carbons s) o = [c] →
       bondedTo (detectBonds (carbons s) (oxygens s) s) o =
         (if bondMem s.bonds o c then bondedTo s o else c :: bondedTo s o)) ∧
    ((∀ c, candidates s (carbons s) o ≠ [c]) →
       bondedTo (detectBonds (carbons s) (oxygens s) s) o = bondedTo s o) :=
  ⟨fun c hc => detect_partners_one (carbons s) (oxygens s) s o c (oxygens_nodup s)
      (oxygens_disjoint s) ho hc,
   fun hc => detect_partners_other (carbons s) (oxygens s) s o (oxygens_nodup s)
      (oxygens_disjoint s) ho hc⟩

/-- Claim C2, witness: with two candidate carbons the oxygen of `ambigState`
keeps its empty partner list. -/
theorem C2_witness :
    (0 ∈ oxygens ambigState) ∧
    bondedTo (detectBonds (carbons ambigState) (oxygens ambigState) ambigState) 0
      = bondedTo ambigState 0 :=
  ⟨by decide,
   (C2_amended ambigState 0 (by decide)).2 (fun c hc => by
      rw [ambig_cands_full] at hc
      simp at hc)⟩

/-- Claim C2, counterexample: an oxygen with two carbons inside the cutoff is
no fatal condition in the source — the detection step leaves the structure
untouched — while the spec-modelled step fails with BondAmbiguity. -/
theorem C2_counterexample :
    candidates ambigState (carbons ambigState) 0 = [1, 2] ∧
    bondCount ambigState 0 = 0 ∧
    detectBonds (carbons ambigState) (oxygens ambigState) ambigState = ambigState ∧
    detectBondsSpec (carbons ambigState) (oxygens ambigState) ambigState
      = .error "BondAmbiguity" := by
  refine ⟨ambig_cands_full, by decide, ?_, ?_⟩
  · rw [show carbons ambigState = [1, 2] from by decide,
        show oxygens ambigState = [0] from by decide]
    unfold detectBonds
    rw [List.foldl_cons, List.foldl_nil]
    unfold detectStep
    rw [ambig_cands]
  · rw [show carbons ambigState = [1, 2] from by decide,
        show oxygens ambigState = [0] from by decide]
    unfold detectBondsSpec
    rw [List.foldlM_cons]
    have hstep : detectStepSpec [1, 2] ambigState 0 = .error "BondAmbiguity" := by
      unfold detectStepSpec
      rw [if_pos (by decide), ambig_cands]
    rw [hstep]
    rfl

/-- Claim C3 (amended): the completion stage is one pass over the free
oxygens, not a repeated loop; it never raises a stall condition — its only
failure mode is the zero-bond-carbon error of some carbon of the group. -/
theorem C3_amended (n : Vec3) (cars oxs : List Nat) (s : SimState) :
    (∃ t, completionPass n cars oxs s = .ok t) ∨
    (∃ t c, c ∈ cars ∧ completionPass n cars oxs s = .error (t, zeroBondMsg c)) :=
  completionPass_shape n cars oxs s

/-- Claim C3, counterexample: on a structure whose pass makes no progress
while a free oxygen remains, the source's single pass returns success,
whereas the spec-modelled repeat-until-no-progress loop fails with
StalledReconstruction. -/
theorem C3_counterexample :
    bondCount stalledState 4 = 0 ∧
    (4 ∈ oxygens stalledState) ∧
    completionPass nvec (carbons stalledState) (oxygens stalledState) stalledState
      = .ok stalledState ∧
    completionLoopSpec nvec (carbons stalledState) (oxygens stalledState) 5 stalledState
      = .error (stalledState, "StalledReconstruction") :=
  ⟨by decide, by decide, rfl, rfl⟩

/-- Claim C4 (amended): for a free oxygen the completion step takes the
first carbon in group order whose bond count differs from 3 — distance plays
no role — placing by the two-bond or one-bond rule, or failing when that
carbon has no bonds. -/
theorem C4_amended (n : Vec3) (o : Nat) (pre post : List Nat) (c : Nat) (s : SimState)
    (hfree : bondCount s o = 0) (hpre : ∀ x ∈ pre, bondCount s x = 3) :
    (bondCount s c = 2 → completionStep n (pre ++ c :: post) s o =
       .ok { setPos s o (place2pos s c) with bonds := addBond s.bonds o c }) ∧
    (bondCount s c = 1 → completionStep n (pre ++ c :: post) s o =
       .ok { setPos s o (place1pos n s c) with bonds := addBond s.bonds o c }) ∧
    (bondCount s c = 0 → completionStep n (pre ++ c :: post) s o =
       .error (s, zeroBondMsg c)) := by
  refine ⟨fun hc => ?_, fun hc => ?_, fun hc => ?_⟩ <;>
    (unfold completionStep; rw [if_pos hfree])
  · exact completionInner_sel2 n o pre post c s hpre hc
  · exact completionInner_sel1 n o pre post c s hpre hc
  · exact completionInner_sel0 n o pre post c s hpre hc

/-- Claim C4, witness: on `farFirstState` the step hands the oxygen to the
first listed carbon. -/
theorem C4_witness :
    bondCount farFirstState 2 = 0 ∧
    bondCount farFirstState 0 = 2 ∧
    completionStep nvec ([] ++ 0 :: [1]) farFirstState 2 =
      .ok { setPos farFirstState 2 (place2pos farFirstState 0) with
            bonds := addBond farFirstState.bonds 2 0 } :=
  ⟨by decide, by decide,
   (C4_amended nvec 2 [] [1] 0 farFirstState (by decide)
      (fun x hx => absurd hx (List.not_mem_nil x))).1 (by decide)⟩

/-- Claim C4, counterexample: the free oxygen of `farFirstState` is bonded
to carbon 0, the first of the group, although carbon 1 — also eligible with
2 bonds — is strictly nearer under the minimum image. -/
theorem C4_counterexample :
    completionPass nvec (carbons farFirstState) (oxygens farFirstState) farFirstState
      = .ok farFirstResult ∧
    bondMem farFirstResult.bonds 2 0 = true ∧
    bondMem farFirstResult.bonds 2 1 = false ∧
    bondCount farFirstState 1 = 2 ∧
    bondCount farFirstState 0 = 2 ∧
    miDist2 (getAtom farFirstState 2).pos (getAtom farFirstState 1).pos farFirstState.box
      < miDist2 (getAtom farFirstState 2).pos (getAtom farFirstState 0).pos
          farFirstState.box := by
  refine ⟨rfl, by decide, by decide, by decide, by decide, ?_⟩
  have h1 : miDist2 (getAtom farFirstState 2).pos (getAtom farFirstState 1).pos
      farFirstState.box = 4 := by
    show miDist2 ⟨50, 2, 0⟩ ⟨50, 0, 0⟩ ⟨1000, 1000, 1000⟩ = 4
    rw [miDist2_eq _ _ _ (by apply abs_bound_of <;> norm_num)
        (by apply abs_bound_of <;> norm_num) (by apply abs_bound_of <;> norm_num)]
    norm_num
  have h0 : miDist2 (getAtom farFirstState 2).pos (getAtom farFirstState 0).pos
      farFirstState.box = 2504 := by
    show miDist2 ⟨50, 2, 0⟩ ⟨0, 0, 0⟩ ⟨1000, 1000, 1000⟩ = 2504
    rw [miDist2_eq _ _ _ (by apply abs_bound_of <;> norm_num)
        (by apply abs_bound_of <;> norm_num) (by apply abs_bound_of <;> norm_num)]
    norm_num
  rw [h1, h0]
  norm_num

/-- Detection on `goodState` bonds all three oxygens to the carbon. -/
theorem good_detect :
    detectBonds (carbons goodState) (oxygens goodState) goodState = goodDetected := by
  rw [show carbons goodState = [0] from by decide,
      show oxygens goodState = [1, 2, 3] from by decide]
  have hca : ∀ (bs : List (Nat × Nat)) (o : Nat),
      candidates { goodState with bonds := bs } [0] o = candidates goodState [0] o :=
    fun bs o => candidates_congr goodState { goodState with bonds := bs } [0] o rfl rfl
  have hc1 : candidates goodState [0] 1 = [0] := by
    have hd : miDist2 (getAtom goodState 1).pos (getAtom goodState 0).pos
        goodState.box = 1 := by
      show miDist2 ⟨1, 0, 0⟩ ⟨0, 0, 0⟩ ⟨200, 200, 200⟩ = 1
      rw [miDist2_eq _ _ _ (by apply abs_bound_of <;> norm_num)
          (by apply abs_bound_of <;> norm_num) (by apply abs_bound_of <;> norm_num)]
      norm_num
    unfold candidates
    rw [List.filter_cons, List.filter_nil,
        if_pos (by rw [decide_eq_true_eq, hd, cutoff]; norm_num)]
  have hc2 : candidates goodState [0] 2 = [0] := by
    have hd : miDist2 (getAtom goodState 2).pos (getAtom goodState 0).pos
        goodState.box = 1 := by
      show miDist2 ⟨0, 1, 0⟩ ⟨0, 0, 0⟩ ⟨200, 200, 200⟩ = 1
      rw [miDist2_eq _ _ _ (by apply abs_bound_of <;> norm_num)
          (by apply abs_bound_of <;> norm_num) (by apply abs_bound_of <;> norm_num)]
      norm_num
    unfold candidates
    rw [List.filter_cons, List.filter_nil,
        if_pos (by rw [decide_eq_true_eq, hd, cutoff]; norm_num)]
  have hc3 : candidates goodState [0] 3 = [0] := by
    have hd : miDist2 (getAtom goodState 3).pos (getAtom goodState 0).pos
        goodState.box = 1 := by
      show miDist2 ⟨0, 0, 1⟩ ⟨0, 0, 0⟩ ⟨200, 200, 200⟩ = 1
      rw [miDist2_eq _ _ _ (by apply abs_bound_of <;> norm_num)
          (by apply abs_bound_of <;> norm_num) (by apply abs_bound_of <;> norm_num)]
      norm_num
    unfold candidates
    rw [List.filter_cons, List.filter_nil,
        if_pos (by rw [decide_eq_true_eq, hd, cutoff]; norm_num)]
  have d1 : detectStep [0] goodState 1 = { goodState with bonds := [(1, 0)] } := by
    unfold detectStep
    rw [hc1]
    rfl
  have d2 : detectStep [0] { goodState with bonds := [(1, 0)] } 2
      = { goodState with bonds := [(2, 0), (1, 0)] } := by
    unfold detectStep
    rw [hca [(1, 0)] 2, hc2]
    rfl
  have d3 : detectStep [0] { goodState with bonds := [(2, 0), (1, 0)] } 3
      = { goodState with bonds := [(3, 0), (2, 0), (1, 0)] } := by
    unfold detectStep
    rw [hca [(2, 0), (1, 0)] 3, hc3]
    rfl
  unfold detectBonds
  rw [List.foldl_cons, d1, List.foldl_cons, d2, List.foldl_cons, d3, List.foldl_nil]
  rfl

/-- The duplicate-coordinate check passes on the reconstructed `goodState`. -/
theorem good_dup : dupCheck goodChecked = .ok goodChecked := by
  unfold dupCheck
  rw [if_pos]
  show List.Pairwise _ goodChecked.atoms
  simp only [goodChecked, List.pairwise_cons, List.mem_cons, List.mem_singleton]
  norm_num [Vec3.mk.injEq, Atom.mk.injEq]

/-- The protected body succeeds on `goodState`, reconstructing the complete
carbonate group. -/
theorem good_run : tryBody goodState = .ok goodChecked := by
  refine tryBody_eq goodState goodNorm goodDetected goodChecked
    goodChecked goodChecked ?_ ?_ ?_ ?_ good_dup
  · rw [good_detect]
    rfl
  · rw [good_detect]
    rfl
  · rfl
  · rfl

/-- Claim C5 (amended): a successful residue assignment numbers the carbonate
residues 1, 2, ... in atom order and the calcium singleton residues
`n_CA + 1`, `n_CA + 2`, ... where `n_CA` is the count of atoms whose residue
name is `CA` before assignment — the calcium sequence does not continue the
carbonate sequence, so the ids over the whole structure are contiguous from 1
only when the carbonate count equals `n_CA`. -/
theorem C5_amended (s t : SimState)
    (hb : ∀ i ∈ atomIdx s, (getAtom s i).name = "CX1" →
       ∀ b ∈ partners s.bonds i,
         (getAtom s b).name ≠ "CX1" ∧ (getAtom s b).name ≠ "CA")
    (h : assignResidues s = .ok t) :
    residsOf t "CX1" = List.range' 1 (countName s "CX1") ∧
    residsOf t "CA" = List.range' (resCountCA s + 1) (countName s "CA") := by
  obtain ⟨ic2, ica2, hr⟩ := assignResidues_inv s t h
  obtain ⟨hbonds, hlen, hnames, hpos⟩ := assignResidues_preserve s t h
  obtain ⟨hC, hA, hkeep⟩ := assign_go (atomIdx s) s 1 (resCountCA s + 1) t ic2 ica2
    (by unfold atomIdx; exact List.nodup_range _)
    (by intro i hi; unfold atomIdx at hi; exact List.mem_range.mp hi) hb hr
  have hidx : atomIdx t = atomIdx s := by unfold atomIdx; rw [hlen]
  unfold residsOf countName
  rw [hidx]
  constructor
  · simp only [hnames]
    exact hC
  · simp only [hnames]
    exact hA

/-- Claim C5, witness: on one carbonate group with three calcium ions the
carbonate residue takes id 1 and the calcium residues take ids 4, 5, 6. -/
theorem C5_amended_witness :
    residsOf resResult "CX1" = List.range' 1 (countName resState "CX1") ∧
    residsOf resResult "CA"
      = List.range' (resCountCA resState + 1) (countName resState "CA") :=
  C5_amended resState resResult (by decide) rfl

/-- Claim C5, counterexample: with one carbonate group and three calcium
ions the assignment succeeds, yet ids 2 and 3 are never used — the residue
ids are not contiguous. -/
theorem C5_counterexample :
    assignResidues resState = .ok resResult ∧
    countName resState "CX1" = 1 ∧ resCountCA resState = 3 ∧
    (1 ∈ allResids resResult) ∧ (4 ∈ allResids resResult) ∧
    (2 ∉ allResids resResult) ∧ (3 ∉ allResids resResult) :=
  ⟨rfl, by decide, by decide, by decide, by decide, by decide, by decide⟩

/-- Claim C6 (amended): if the protected body succeeds on a structure with no
pre-existing bonds whose oxygen count is three times its carbon count, then
every carbon ends with exactly 3 bonds and every oxygen with exactly 1; the
success check itself only validates the carbons, so without the count
hypothesis an oxygen can stay free. -/
theorem C6_amended (s t : SimState) (h0 : s.bonds = [])
    (hcnt : (oxygens s).length = 3 * (carbons s).length)
    (h : tryBody s = .ok t) :
    (∀ c ∈ carbons s, bondCount t c = 3) ∧
    (∀ o ∈ oxygens s, bondCount t o = 1) := by
  obtain ⟨n, s2, s3, s4, hn, hp, hc, ha, ht⟩ := tryBody_parts s t h
  have hb3 : s3.bonds = s2.bonds := checkCarbons_bonds (carbons s) s2 s3 hc
  have hb4 : s4.bonds = s3.bonds := (assignResidues_preserve s3 s4 ha).1
  have hall3 : ∀ c ∈ carbons s, bondCount s2 c = 3 :=
    checkCarbons_count (carbons s) s2 s3 hc
  have hone : ∀ o ∈ oxygens s, bondCount s2 o = 1 :=
    stage_oxygen_counts s h0 n s2 hp hall3 hcnt
  constructor
  · intro c hcc
    show (partners t.bonds c).length = 3
    rw [ht, hb4, hb3]
    exact hall3 c hcc
  · intro o ho
    show (partners t.bonds o).length = 1
    rw [ht, hb4, hb3]
    exact hone o ho

/-- Claim C6, witness: on a complete single-carbonate input the reconstructed
carbon holds 3 bonds and the first oxygen exactly 1. -/
theorem C6_amended_witness :
    bondCount goodChecked 0 = 3 ∧ bondCount goodChecked 1 = 1 :=
  ⟨(C6_amended goodState goodChecked rfl (by decide) good_run).1 0 (by decide),
   (C6_amended goodState goodChecked rfl (by decide) good_run).2 1 (by decide)⟩

/-- Claim C6, counterexample: the protected body succeeds on `extraOxState`
although its distant oxygen, atom 4, ends with zero bonded carbons — success
does not imply that every oxygen has exactly one bond. -/
theorem C6_counterexample :
    tryBody extraOxState = .ok extraOxChecked ∧
    (4 ∈ oxygens extraOxState) ∧
    bondCount extraOxChecked 4 = 0 :=
  ⟨extraOx_run, by decide, by decide⟩

/-- The two-bond placement on `planarState` lands the third oxygen at the
spec scenario's target `(-0.5, -0.866, 0) * 1.285` with `0.866` read as the
exact `sqrt 3 / 2`. -/
theorem planar_place :
    place2pos planarState 0 = ⟨-(1.285 / 2), -(1.285 * (Real.sqrt 3 / 2)), 0⟩ := by
  have h3nn : (0:ℝ) ≤ Real.sqrt 3 := Real.sqrt_nonneg 3
  have h3sq : Real.sqrt 3 ^ 2 = 3 := Real.sq_sqrt (by norm_num)
  have h3lt : Real.sqrt 3 < 2 := by nlinarith
  have hw1 : miBondVec planarState 0 1 = ⟨1.285, 0, 0⟩ := by
    show miVec ⟨1.285, 0, 0⟩ ⟨0, 0, 0⟩ ⟨1000, 1000, 1000⟩ = ⟨1.285, 0, 0⟩
    rw [miVec_eq _ _ _ (by apply abs_bound_of <;> norm_num)
        (by apply abs_bound_of <;> norm_num) (by apply abs_bound_of <;> norm_num)]
    unfold vsub
    norm_num
  have hw2 : miBondVec planarState 0 2
      = ⟨-(1.285 / 2), 1.285 * (Real.sqrt 3 / 2), 0⟩ := by
    show miVec ⟨-(1.285 / 2), 1.285 * (Real.sqrt 3 / 2), 0⟩ ⟨0, 0, 0⟩
        ⟨1000, 1000, 1000⟩ = _
    rw [miVec_eq _ _ _ (by apply abs_bound_of <;> norm_num)
        (by apply abs_bound_of <;> nlinarith)
        (by apply abs_bound_of <;> norm_num)]
    unfold vsub
    norm_num
  have hv : vsub (vneg ⟨1.285, 0, 0⟩) ⟨-(1.285 / 2), 1.285 * (Real.sqrt 3 / 2), 0⟩
      = ⟨-(1.285 / 2), -(1.285 * (Real.sqrt 3 / 2)), 0⟩ := by
    unfold vsub vneg
    norm_num [Vec3.mk.injEq]
  have hd : dot ⟨-(1.285 / 2), -(1.285 * (Real.sqrt 3 / 2)), 0⟩
      ⟨-(1.285 / 2), -(1.285 * (Real.sqrt 3 / 2)), 0⟩ = 1.285 ^ 2 := by
    unfold dot
    dsimp only
    nlinarith [h3sq]
  have hn : vnorm ⟨-(1.285 / 2), -(1.285 * (Real.sqrt 3 / 2)), 0⟩ = 1.285 := by
    unfold vnorm
    rw [hd, Real.sqrt_sq (by norm_num)]
  show vadd ⟨0, 0, 0⟩ (smul idealBond (normalize (vsub
      (vneg (miBondVec planarState 0 1)) (miBondVec planarState 0 2)))) = _
  rw [hw1, hw2, hv]
  unfold normalize
  rw [hn]
  unfold vadd smul idealBond
  norm_num [Vec3.mk.injEq]
  ring

/-- Claim C7: a free oxygen handed to a carbon with exactly 2 bonds is placed
at the carbon's position plus `idealBond` times the normalized negated sum of
the two minimum-image bond vectors; afterwards the carbon holds 3 bonds and
the oxygen 1. -/
theorem C7_placement (n : Vec3) (o : Nat) (pre post : List Nat) (c : Nat) (s : SimState)
    (ho : o < s.atoms.length) (hoc : o ≠ c) (hfree : bondCount s o = 0)
    (hpre : ∀ x ∈ pre, bondCount s x = 3) (hc : bondCount s c = 2) :
    completionStep n (pre ++ c :: post) s o =
      .ok { setPos s o (place2pos s c) with bonds := addBond s.bonds o c } ∧
    place2pos s c = vadd (getAtom s c).pos
      (smul idealBond (normalize (vneg (vadd
        (miBondVec s c ((bondedTo s c).getD 0 0))
        (miBondVec s c ((bondedTo s c).getD 1 0)))))) ∧
    bondCount { setPos s o (place2pos s c) with bonds := addBond s.bonds o c } c = 3 ∧
    bondCount { setPos s o (place2pos s c) with bonds := addBond s.bonds o c } o = 1 ∧
    (getAtom { setPos s o (place2pos s c) with bonds := addBond s.bonds o c } o).pos
      = place2pos s c := by
  have hnil : partners s.bonds o = [] := List.length_eq_zero.mp hfree
  have hm : bondMem s.bonds o c ≠ true := bondMem_of_empty_partners s.bonds o c hnil
  refine ⟨?_, ?_, ?_, ?_, ?_⟩
  · unfold completionStep
    rw [if_pos hfree]
    exact completionInner_sel2 n o pre post c s hpre hc
  · show vadd (getAtom s c).pos (smul idealBond (normalize (vsub
        (vneg (miBondVec s c ((bondedTo s c).getD 0 0)))
        (miBondVec s c ((bondedTo s c).getD 1 0))))) = _
    rw [vsub_vneg_eq]
  · show (partners (addBond s.bonds o c) c).length = 3
    rw [partners_addBond_snd s.bonds o c hm hoc]
    have hc2 : (partners s.bonds c).length = 2 := hc
    rw [List.length_cons, hc2]
  · show (partners (addBond s.bonds o c) o).length = 1
    rw [partners_addBond_fst s.bonds o c hm, hnil]
    rfl
  · show (getAtom (setPos s o (place2pos s c)) o).pos = place2pos s c
    exact setPos_pos_eq s o (place2pos s c) ho

/-- Claim C7, witness: on the spec's planar scenario the free oxygen is
placed at `(-0.5, -0.866, 0) * 1.285` relative to the carbon (with `0.866`
read as the exact `sqrt 3 / 2`), the carbon ends with 3 bonds and the
oxygen with 1. -/
theorem C7_placement_witness :
    completionStep nvec ([] ++ 0 :: []) planarState 3 = .ok planarResult ∧
    bondCount planarResult 0 = 3 ∧
    bondCount planarResult 3 = 1 ∧
    (getAtom planarResult 3).pos = ⟨-(1.285 / 2), -(1.285 * (Real.sqrt 3 / 2)), 0⟩ := by
  obtain ⟨h1, h2, h3, h4, h5⟩ := C7_placement nvec 3 [] [] 0 planarState (by decide)
      (by decide) (by decide) (fun x hx => absurd hx (List.not_mem_nil x)) (by decide)
  exact ⟨h1, h3, h4, h5.trans planar_place⟩

/-- Claim C9 (amended): the bond-inference stage is a no-op on a structure in
which every singleton candidate bond is already present and every carbon
already holds 3 bonds; on complete structures in which a bonded oxygen sits
inside the cutoff of a second carbon, detection is not a no-op. -/
theorem C9_amended :
    (∀ (cars oxs : List Nat) (s : SimState),
       (∀ o ∈ oxs, ∀ c, candidates s cars o = [c] → bondMem s.bonds o c = true) →
       detectBonds cars oxs s = s) ∧
    (∀ (n : Vec3) (cars oxs : List Nat) (s : SimState),
       (∀ c ∈ cars, bondCount s c = 3) →
       completionPass n cars oxs s = .ok s) :=
  ⟨detectBonds_noop, completionPass_all3⟩

/-- Claim C9, witness: on the complete carbonate group whose oxygens are far
outside the cutoff, detection and completion both leave the structure
untouched. -/
theorem C9_amended_witness :
    detectBonds (carbons farOxState) (oxygens farOxState) farOxState = farOxState ∧
    completionPass nvec (carbons farOxState) (oxygens farOxState) farOxState
      = .ok farOxState := by
  have hc1 : candidates farOxState [0] 1 = [] := by
    have hd : miDist2 (getAtom farOxState 1).pos (getAtom farOxState 0).pos
        farOxState.box = 900 := by
      show miDist2 ⟨30, 0, 0⟩ ⟨0, 0, 0⟩ ⟨1000, 1000, 1000⟩ = 900
      rw [miDist2_eq _ _ _ (by apply abs_bound_of <;> norm_num)
          (by apply abs_bound_of <;> norm_num) (by apply abs_bound_of <;> norm_num)]
      norm_num
    unfold candidates
    rw [List.filter_cons, List.filter_nil,
        if_neg (by rw [decide_eq_true_eq, hd, cutoff]; norm_num)]
  have hc2 : candidates farOxState [0] 2 = [] := by
    have hd : miDist2 (getAtom farOxState 2).pos (getAtom farOxState 0).pos
        farOxState.box = 1600 := by
      show miDist2 ⟨40, 0, 0⟩ ⟨0, 0, 0⟩ ⟨1000, 1000, 1000⟩ = 1600
      rw [miDist2_eq _ _ _ (by apply abs_bound_of <;> norm_num)
          (by apply abs_bound_of <;> norm_num) (by apply abs_bound_of <;> norm_num)]
      norm_num
    unfold candidates
    rw [List.filter_cons, List.filter_nil,
        if_neg (by rw [decide_eq_true_eq, hd, cutoff]; norm_num)]
  have hc3 : candidates farOxState [0] 3 = [] := by
    have hd : miDist2 (getAtom farOxState 3).pos (getAtom farOxState 0).pos
        farOxState.box = 2500 := by
      show miDist2 ⟨50, 0, 0⟩ ⟨0, 0, 0⟩ ⟨1000, 1000, 1000⟩ = 2500
      rw [miDist2_eq _ _ _ (by apply abs_bound_of <;> norm_num)
          (by apply abs_bound_of <;> norm_num) (by apply abs_bound_of <;> norm_num)]
      norm_num
    unfold candidates
    rw [List.filter_cons, List.filter_nil,
        if_neg (by rw [decide_eq_true_eq, hd, cutoff]; norm_num)]
  constructor
  · refine C9_amended.1 (carbons farOxState) (oxygens farOxState) farOxState ?_
    intro o ho c hc
    rw [show carbons farOxState = [0] from by decide] at hc
    rw [show oxygens farOxState = [1, 2, 3] from by decide] at ho
    simp only [List.mem_cons, List.not_mem_nil, or_false] at ho
    rcases ho with rfl | rfl | rfl
    · rw [hc1] at hc
      exact absurd hc (by simp)
    · rw [hc2] at hc
      exact absurd hc (by simp)
    · rw [hc3] at hc
      exact absurd hc (by simp)
  · exact C9_amended.2 nvec (carbons farOxState) (oxygens farOxState) farOxState
      (by decide)

/-- Claim C9, counterexample: both carbons of `driftState` are complete with
3 bonds, yet detection adds a fourth bond to carbon 4 because its neighbor
group's bonded oxygen 1 sits inside the cutoff — reconstruction is not
idempotent on complete inputs. -/
theorem C9_counterexample :
    carbons driftState = [0, 4] ∧
    bondCount driftState 0 = 3 ∧ bondCount driftState 4 = 3 ∧
    detectBonds (carbons driftState) (oxygens driftState) driftState = driftDetected ∧
    driftDetected.bonds ≠ driftState.bonds ∧
    bondCount driftDetected 4 = 4 :=
  ⟨by decide, by decide, by decide, drift_detect, by decide, by decide⟩

/-- Claim C10: starting from a structure with no pre-existing bonds, every
oxygen of the group holds at most one bond after detection, after a
successful completion pass, and in the diagnostic state carried by a failed
completion pass. -/
theorem C10_invariant (s : SimState) (h0 : s.bonds = []) (n : Vec3) (o : Nat)
    (ho : o ∈ oxygens s) :
    bondCount (detectBonds (carbons s) (oxygens s) s) o ≤ 1 ∧
    (∀ t, completionPass n (carbons s) (oxygens s)
        (detectBonds (carbons s) (oxygens s) s) = .ok t → bondCount t o ≤ 1) ∧
    (∀ e, completionPass n (carbons s) (oxygens s)
        (detectBonds (carbons s) (oxygens s) s) = .error e → bondCount e.1 o ≤ 1) := by
  have hd := detect_count_le s h0 o ho
  have hno : o ∉ carbons s := oxygens_disjoint s o ho
  have hp := completionPass_count_le n (carbons s) (oxygens s) o hno
      (detectBonds (carbons s) (oxygens s) s) hd
  exact ⟨hd, hp.1, hp.2⟩

/-- Claim C10, witness: on the bond-free carbon with two near oxygens, the
first oxygen ends detection with at most one bond. -/
theorem C10_invariant_witness :
    bondCount (detectBonds (carbons twoOxState) (oxygens twoOxState) twoOxState) 1 ≤ 1 :=
  (C10_invariant twoOxState rfl nvec 1 (by decide)).1
